import Mathlib

/-!
GoEndpointManager: the etcd-backed endpoint resolver.

A shallow embedding of `EtcdEndpointManager.go` and the properties of its
specification that concern the resolver: registry value parsing, the endpoint
cache and its rotation counter, watch updates, and the static fallback.

Modelling conventions.

* A Go `string` is a Lean `String`.  The only separators the code looks for are
  the ASCII characters `,`, `:` and the space, so splitting and trimming by
  character agrees with Go's byte-wise behaviour on UTF-8 text.
* Go `int` is the 64-bit two's-complement integer: values are `Int`, and the
  one arithmetic operation of the code (`rotated + 1`) is reduced with
  `wrapInt`.  `%` is Go's truncated remainder, `Int.tmod`.
* A `sync.Map` is a total function to `Option`; the Go `map` of defaults, which
  `Start` ranges over, is an association list with unique keys.
* The receiver `o` is passed and returned explicitly.  The registry (etcd) is
  outside the program: what it answers during one call is the `Registry`
  argument of that call, and the requests sent to it are returned as a list of
  `Effect`s.  A run-time panic (index out of range) is a `Completion.panicked`.
* Goroutines are not modelled: a `MonitorChan` task is the function that folds
  the events it receives into the state, applied between two calls.
-/

namespace GoEndpointManager

/-! ## Go runtime: integers, strings, maps -/

/-- Largest value of a Go `int` (64 bit). -/
def maxInt : Int := 9223372036854775807

/-- Smallest value of a Go `int` (64 bit). -/
def minInt : Int := -9223372036854775808

/-- Two's-complement reduction of an integer to the range of a Go `int`. -/
def wrapInt (x : Int) : Int :=
  (x + 9223372036854775808) % 18446744073709551616 - 9223372036854775808

/-- How a Go call ends: it returns its results, or it panics. -/
inductive Completion (α : Type) where
  | returned (value : α)
  | panicked
deriving DecidableEq, Repr

/-- Pieces of a character sequence between the occurrences of `sep`: the
loop of `strings.Split` for a one-character separator.  There is always one
piece more than there are separators. -/
def splitChars (sep : Char) : List Char → List (List Char)
  | [] => [[]]
  | c :: cs =>
    if c = sep then [] :: splitChars sep cs
    else
      match splitChars sep cs with
      | [] => [[c]]
      | piece :: rest => (c :: piece) :: rest

/-- Go `strings.Split(s, sep)` for a one-character separator. -/
def Split (s : String) (sep : Char) : List String :=
  (splitChars sep s.data).map String.mk

/-- Removal of the leading occurrences of `cut`. -/
def trimLeft (cut : Char) (cs : List Char) : List Char :=
  cs.dropWhile (fun c => c == cut)

/-- Removal of the leading and trailing occurrences of `cut`. -/
def trimChars (cut : Char) (cs : List Char) : List Char :=
  (trimLeft cut (trimLeft cut cs).reverse).reverse

/-- Go `strings.Trim(s, cutset)` for a one-character cutset. -/
def Trim (s : String) (cut : Char) : String :=
  String.mk (trimChars cut s.data)

/-- A `sync.Map` with string keys. -/
abbrev SyncMap (α : Type) := String → Option α

/-- The empty `sync.Map` (the zero value of the type). -/
def SyncMap.empty {α : Type} : SyncMap α := fun _ => none

/-- Go `m.Load(key)`: the value and whether it is present, as an `Option`. -/
def SyncMap.Load {α : Type} (m : SyncMap α) (key : String) : Option α := m key

/-- Go `m.Store(key, value)`. -/
def SyncMap.Store {α : Type} (m : SyncMap α) (key : String) (value : α) : SyncMap α :=
  fun k => if k = key then some value else m k

/-- Go `m.LoadOrStore(key, value)`: the existing value if there is one,
otherwise `value`, which is then stored. -/
def SyncMap.LoadOrStore {α : Type} (m : SyncMap α) (key : String) (value : α) :
    α × SyncMap α :=
  match m key with
  | some actual => (actual, m)
  | none => (value, m.Store key value)

/-! ## Data model -/

/-- An endpoint: host and port, both strings. -/
structure Endpoint where
  Host : String
  Port : String
deriving DecidableEq, Repr

/-- The errors a lookup can return. -/
inductive GoError where
  | notFound
deriving DecidableEq, Repr

/-- What `GetEndpoint` returns: host, port and error (`none` is `nil`). -/
abbrev Lookup := Completion (String × String × Option GoError)

/-- Modelled from the spec: the static fallback resolver `InMemEndpointManager`,
whose source file is not part of the sources at hand.  Only its field
`defaultEndpoints`, a Go `map[string]*Endpoint`, is visible from
`EtcdEndpointManager.go`. -/
structure InMemEndpointManager where
  defaultEndpoints : List (String × Endpoint)
deriving DecidableEq, Repr

/-- Modelled from the spec: `SetDefault(id, host, port)` of section 4.1,
"stores/overwrites the single default Endpoint for `id`; no error conditions;
always succeeds". -/
def InMemEndpointManager.SetDefaultEntpoint (m : InMemEndpointManager)
    (serviceID host port : String) : Option GoError × InMemEndpointManager :=
  (none, { defaultEndpoints :=
      (serviceID, ⟨host, port⟩) :: m.defaultEndpoints.filter (fun kv => kv.1 != serviceID) })

/-- Modelled from the spec: `Get(id)` of section 4.1, a "pure lookup" with
"found=false if `id` was never configured", surfaced by `GetEndpoint` as the
`NotFound` error with no host and no port. -/
def InMemEndpointManager.GetEndpoint (m : InMemEndpointManager) (serviceID : String) :
    Lookup :=
  match m.defaultEndpoints.lookup serviceID with
  | some ep => .returned (ep.Host, ep.Port, none)
  | none => .returned ("", "", some GoError.notFound)

/-- A key-value pair of an etcd response (`mvccpb.KeyValue`). -/
structure KeyValue where
  Key : String
  Value : String
deriving DecidableEq, Repr

/-- The type of a watch event. -/
inductive EventType where
  | PUT
  | DELETE
deriving DecidableEq, Repr

/-- A watch event (`clientv3.Event`); `Type_` is its field `Type`. -/
structure Event where
  Type_ : EventType
  Kv : KeyValue
deriving DecidableEq, Repr

/-- One message of a watch channel (`clientv3.WatchResponse`). -/
structure WatchResponse where
  Events : List Event
deriving DecidableEq, Repr

/-- A connection to the registry (`*clientv3.Client`, when not nil). -/
structure Client where
  Endpoints : List String
deriving DecidableEq, Repr

/-- What the registry answers during one call of the resolver:
`New endpoints` is the result of `etcdv3.New` (`none`: it returned an error),
`Get key` the key-value pairs of `client.Get` (`none`: it returned an error). -/
structure Registry where
  New : List String → Option Client
  Get : String → Option (List KeyValue)

/-- The requests a call sends to the registry: a point read, or a watch whose
channel is handed to a new `MonitorChan` task (`subtree`: the watch was opened
with the option that covers every key under `key`). -/
inductive Effect where
  | Get (key : String)
  | Watch (key : String) (subtree : Bool)
deriving DecidableEq, Repr

/-- The resolver `EtcdEndpointManager`: it embeds the static fallback. -/
structure EtcdEndpointManager extends InMemEndpointManager where
  EtcdEndpoints : List String
  client : Option Client
  rootService : String
  EndpointsMap : SyncMap (List Endpoint)
  EndpointRotating : SyncMap Int

/-! ## Operations -/

/-- The body of the loop of `parseServiceFromString`: a token that splits on
`:` into exactly two pieces appends one endpoint. -/
def appendHostPort (Eps : List Endpoint) (HostPort : String) : List Endpoint :=
  match Split HostPort ':' with
  | [h, p] => Eps ++ [⟨Trim h ' ', Trim p ' '⟩]
  | _ => Eps

/-- The list `Eps` that `parseServiceFromString` builds from `val`. -/
def parseEndpoints (val : String) : List Endpoint :=
  (Split val ',').foldl appendHostPort []

/-- `parseServiceFromString(serviceID, val)`: parses `val`, stores the list in
the endpoint cache under `serviceID` and returns it. -/
def parseServiceFromString (o : EtcdEndpointManager) (serviceID val : String) :
    List Endpoint × EtcdEndpointManager :=
  let Eps := parseEndpoints val
  (Eps, { o with EndpointsMap := o.EndpointsMap.Store serviceID Eps })

/-- The body of the inner loop of `MonitorChan` for one event. -/
def handleEvent (o : EtcdEndpointManager) (ev : Event) : EtcdEndpointManager :=
  if ev.Type_ = EventType.PUT then
    (parseServiceFromString o ev.Kv.Key ev.Kv.Value).2
  else o

/-- `MonitorChan(wchan)` on the messages received from the channel. -/
def MonitorChan (o : EtcdEndpointManager) (wchan : List WatchResponse) :
    EtcdEndpointManager :=
  wchan.foldl (fun o wresp => wresp.Events.foldl handleEvent o) o

/-- `NewEtcdEndpointManager(etcdConfigHostports)`. -/
def NewEtcdEndpointManager (etcdConfigHostports : List String) : EtcdEndpointManager :=
  { defaultEndpoints := []
    EtcdEndpoints := etcdConfigHostports
    client := none
    rootService := ""
    EndpointsMap := SyncMap.empty
    EndpointRotating := SyncMap.empty }

/-- `Start()`: connects to the registry unless already connected, and watches
the root service and every service that has a default.  Go ranges over the map
of defaults in no fixed order; the watches are listed in the order of the
association list. -/
def Start (reg : Registry) (o : EtcdEndpointManager) :
    Bool × EtcdEndpointManager × List Effect :=
  if o.client.isSome then (false, o, [])
  else if o.EtcdEndpoints.length = 0 then (false, o, [])
  else
    match reg.New o.EtcdEndpoints with
    | none => (false, o, [])
    | some aClient =>
      let rootWatch :=
        if o.rootService.length > 0 then [Effect.Watch o.rootService true] else []
      let serviceWatches :=
        o.defaultEndpoints.map (fun kv => Effect.Watch kv.1 false)
      (true, { o with client := some aClient }, rootWatch ++ serviceWatches)

/-- The loop of `GetEndpoint` over the pairs of a fetch: the first pair with
the key `serviceID` whose value parses to a non-empty list ends the call with
the first endpoint of that list. -/
def fetchLoop (serviceID : String) :
    EtcdEndpointManager → List KeyValue → Option Endpoint × EtcdEndpointManager
  | o, [] => (none, o)
  | o, kv :: Kvs =>
    if kv.Key = serviceID then
      match parseServiceFromString o serviceID kv.Value with
      | (ep :: _, o1) => (some ep, o1)
      | ([], o1) => fetchLoop serviceID o1 Kvs
    else fetchLoop serviceID o Kvs

/-- The lazy connect at the head of `GetEndpoint`: `Start()` is called when
there is no client yet, and its result is ignored. -/
def lazyStart (reg : Registry) (o : EtcdEndpointManager) :
    EtcdEndpointManager × List Effect :=
  if o.client.isNone then (Start reg o).2 else (o, [])

/-- The two statements of `GetEndpoint` on the rotation counter: the value
read by `LoadOrStore(serviceID, 0)`, and the state after
`Store(serviceID, rotated + 1)`. -/
def rotate (o : EtcdEndpointManager) (serviceID : String) : Int × EtcdEndpointManager :=
  let loaded := o.EndpointRotating.LoadOrStore serviceID 0
  (loaded.1,
    { o with EndpointRotating := loaded.2.Store serviceID (wrapInt (loaded.1 + 1)) })

/-- Go `arr[iPos]` for an `int` index: `none` is the index-out-of-range panic. -/
def index (arr : List Endpoint) (iPos : Int) : Option Endpoint :=
  if 0 ≤ iPos then arr[iPos.toNat]? else none

/-- The part of `GetEndpoint` after the lazy connect: cache, rotation counter,
one-shot fetch with a watch, fallback. -/
def resolve (reg : Registry) (o : EtcdEndpointManager) (serviceID : String) :
    Lookup × EtcdEndpointManager × List Effect :=
  let endpoints := o.EndpointsMap.Load serviceID
  let rotated := (rotate o serviceID).1
  let o := (rotate o serviceID).2
  match endpoints with
  | some arr =>
    if arr.length > 0 then
      let iPos := Int.tmod rotated arr.length
      match index arr iPos with
      | some ep => (.returned (ep.Host, ep.Port, none), o, [])
      | none => (.panicked, o, [])
    else (o.toInMemEndpointManager.GetEndpoint serviceID, o, [])
  | none =>
    if o.client.isSome then
      let effects := [Effect.Get serviceID, Effect.Watch serviceID false]
      match reg.Get serviceID with
      | some Kvs =>
        match fetchLoop serviceID o Kvs with
        | (some ep, o1) => (.returned (ep.Host, ep.Port, none), o1, effects)
        | (none, o1) => (o1.toInMemEndpointManager.GetEndpoint serviceID, o1, effects)
      | none => (o.toInMemEndpointManager.GetEndpoint serviceID, o, effects)
    else (o.toInMemEndpointManager.GetEndpoint serviceID, o, [])

/-- `GetEndpoint(serviceID)`: the results, the state after the call and the
requests sent to the registry, in order. -/
def GetEndpoint (reg : Registry) (o : EtcdEndpointManager) (serviceID : String) :
    Lookup × EtcdEndpointManager × List Effect :=
  let started := lazyStart reg o
  let resolved := resolve reg started.1 serviceID
  (resolved.1, resolved.2.1, started.2 ++ resolved.2.2)

/-- `SetDefaultEntpoint(serviceID, host, port)`: the result `err` is never
assigned, so a call that returns returns `nil`; the results of the inner
`GetEndpoint` are dropped. -/
def SetDefaultEntpoint (reg : Registry) (o : EtcdEndpointManager)
    (serviceID host port : String) :
    Completion (Option GoError) × EtcdEndpointManager × List Effect :=
  let o := { o with toInMemEndpointManager :=
    (o.toInMemEndpointManager.SetDefaultEntpoint serviceID host port).2 }
  if o.client.isSome then
    match GetEndpoint reg o serviceID with
    | (.returned _, o1, effects) => (.returned none, o1, effects)
    | (.panicked, o1, effects) => (.panicked, o1, effects)
  else (.returned none, o, [])

/-- The rotation counter of `serviceID` as `GetEndpoint` reads it: the stored
value, or 0 when there is none yet. -/
def rotation (o : EtcdEndpointManager) (serviceID : String) : Int :=
  (o.EndpointRotating.LoadOrStore serviceID 0).1

/-- Consecutive `GetEndpoint(serviceID)` calls, one per registry answer, with
nothing happening in between; the results are listed in call order. -/
def GetEndpoints (serviceID : String) :
    EtcdEndpointManager → List Registry → List Lookup × EtcdEndpointManager
  | o, [] => ([], o)
  | o, reg :: regs =>
    let first := GetEndpoint reg o serviceID
    let others := GetEndpoints serviceID first.2.1 regs
    (first.1 :: others.1, others.2)

/-- A call of one of the two public operations. -/
inductive Call where
  | GetEndpoint (serviceID : String)
  | SetDefaultEntpoint (serviceID host port : String)
deriving DecidableEq, Repr

/-- The state after a call, whatever its results. -/
def Call.run (reg : Registry) (o : EtcdEndpointManager) : Call → EtcdEndpointManager
  | .GetEndpoint serviceID => (GoEndpointManager.GetEndpoint reg o serviceID).2.1
  | .SetDefaultEntpoint serviceID host port =>
    (GoEndpointManager.SetDefaultEntpoint reg o serviceID host port).2.1

/-- The state after a finite sequence of calls, each with the answers the
registry gives during it. -/
def runCalls (o : EtcdEndpointManager) (calls : List (Registry × Call)) :
    EtcdEndpointManager :=
  calls.foldl (fun o rc => rc.2.run rc.1 o) o

/-- What can happen to a resolver: a call of a public operation, or a watch
event handled by one of its `MonitorChan` tasks. -/
inductive Action where
  | call (reg : Registry) (c : Call)
  | event (ev : Event)

/-- The state after an action. -/
def Action.run (o : EtcdEndpointManager) : Action → EtcdEndpointManager
  | .call reg c => c.run reg o
  | .event ev => MonitorChan o [⟨[ev]⟩]

/-- Whether an action is a registry update for `serviceID`: a `PUT` event with
that key. -/
def Action.updates (serviceID : String) : Action → Bool
  | .call _ _ => false
  | .event ev => ev.Type_ == EventType.PUT && ev.Kv.Key == serviceID

/-- The state after a finite sequence of actions. -/
def runActions (o : EtcdEndpointManager) (actions : List Action) : EtcdEndpointManager :=
  actions.foldl Action.run o

/-! ## Definitions used in the statements -/

/-- The result of a lookup that selects the endpoint `ep`. -/
def found (ep : Endpoint) : Lookup := .returned (ep.Host, ep.Port, none)

/-- A cache entry of three endpoints for `svc` whose rotation counter has
reached the largest `int`. -/
def overflowState : EtcdEndpointManager :=
  { NewEtcdEndpointManager [] with
    EndpointsMap := SyncMap.empty.Store "svc" [⟨"a", "1"⟩, ⟨"b", "2"⟩, ⟨"c", "3"⟩]
    EndpointRotating := SyncMap.empty.Store "svc" 9223372036854775807 }

/-- A registry that cannot be reached. -/
def noRegistry : Registry := ⟨fun _ => none, fun _ => none⟩

/-- A cache entry of two endpoints for `svc` with the rotation counter at 5. -/
def twoEndpoints : EtcdEndpointManager :=
  { NewEtcdEndpointManager [] with
    EndpointsMap := SyncMap.empty.Store "svc" [⟨"a", "1"⟩, ⟨"b", "2"⟩]
    EndpointRotating := SyncMap.empty.Store "svc" 5 }

/-- The endpoint of one token, in the words of the specification: a token
with exactly one `:` gives the text before it as host and the text after it
as port, both trimmed of surrounding spaces; any other token gives nothing. -/
def specEndpoint (token : String) : Option Endpoint :=
  if token.data.count ':' = 1 then
    some ⟨Trim (String.mk (token.data.takeWhile (fun c => c != ':'))) ' ',
      Trim (String.mk (token.data.dropWhile (fun c => c != ':')).tail) ' '⟩
  else none

/-- The parse of a registry value, in the words of the specification: the
endpoints of its comma-separated tokens, in order. -/
def specParse (val : String) : List Endpoint :=
  (Split val ',').filterMap specEndpoint

/-- A service with an arbitrary cache entry and rotation counter, used to
instantiate the watch properties. -/
def staleState : EtcdEndpointManager :=
  { NewEtcdEndpointManager ["etcd:2379"] with
    client := some ⟨["etcd:2379"]⟩
    EndpointsMap := SyncMap.empty.Store "svcA" [⟨"old1", "1"⟩, ⟨"old2", "2"⟩]
    EndpointRotating := SyncMap.empty.Store "svcA" (-7) }

/-- A registry that can be reached and holds `r:1` under every key. -/
def liveRegistry : Registry := ⟨fun eps => some ⟨eps⟩, fun k => some [⟨k, "r:1"⟩]⟩

/-- A resolver with a bootstrap address and no connection yet. -/
def unconnected : EtcdEndpointManager := NewEtcdEndpointManager ["etcd:2379"]

/-- The resolver is in fallback-only mode: no client, no bootstrap address,
nothing in the cache. -/
def FallbackOnly (o : EtcdEndpointManager) : Prop :=
  o.client = none ∧ o.EtcdEndpoints = [] ∧ ∀ k : String, o.EndpointsMap k = none

/-- Whether a call sets the default of `serviceID`. -/
def Call.setsDefault (serviceID : String) : Call → Bool
  | .GetEndpoint _ => false
  | .SetDefaultEntpoint id _ _ => id == serviceID

/-- A connected resolver with an empty cache. -/
def connected : EtcdEndpointManager :=
  { NewEtcdEndpointManager ["etcd:2379"] with client := some ⟨["etcd:2379"]⟩ }

/-- The value of a rotation counter that started at 0 after `k` lookups: each
lookup stores `rotated + 1`, reduced to the range of `int`. -/
def counterAfter : Nat → Int
  | 0 => 0
  | k + 1 => wrapInt (counterAfter k + 1)

/-- None of the first `k` increments of a counter that started at 0 leaves the
range of `int`. -/
def staysInRange (k : Nat) : Prop :=
  ∀ j : Nat, j < k → counterAfter j + 1 ≤ maxInt

/-- A cache entry of two endpoints for `svc`, no counter yet, one default. -/
def freshCounter : EtcdEndpointManager :=
  { NewEtcdEndpointManager [] with
    defaultEndpoints := [("svc", ⟨"d", "1"⟩)]
    EndpointsMap := SyncMap.empty.Store "svc" [⟨"a", "1"⟩, ⟨"b", "2"⟩] }

/-- A resolver that is not connected yet, with a bootstrap address, a default
for `svc` and a cache entry for `svc` that is present and empty: the state
after the default is set on a new manager (which does not connect) and a PUT
event with the value `bad` is handed to `MonitorChan`, an exported method. -/
def unconnectedEmpty : EtcdEndpointManager :=
  runActions (NewEtcdEndpointManager ["etcd:2379"])
    [.call liveRegistry (.SetDefaultEntpoint "svc" "d" "1"),
      .event ⟨EventType.PUT, ⟨"svc", "bad"⟩⟩]

/-- A connected resolver with a default for `svc` and a cache entry for `svc`
that is present and empty. -/
def connectedEmpty : EtcdEndpointManager :=
  { unconnectedEmpty with client := some ⟨["etcd:2379"]⟩ }

/-- A registry that can be reached and answers a read of `svc` with an empty
value followed by the value `r:1, s:2`. -/
def twoValueRegistry : Registry :=
  ⟨fun eps => some ⟨eps⟩, fun _ => some [⟨"other", "x:9"⟩, ⟨"svc", "r:1, s:2"⟩]⟩

/-- A connected resolver with no cache entry, a default for `svc` and a
negative rotation counter for `svc`. -/
def connectedDefault : EtcdEndpointManager :=
  { NewEtcdEndpointManager ["etcd:2379"] with
    defaultEndpoints := [("svc", ⟨"d", "1"⟩)]
    client := some ⟨["etcd:2379"]⟩
    EndpointRotating := SyncMap.empty.Store "svc" (-3) }

/-- Go `strings.Join(elems, sep)`. -/
def Join (elems : List String) (sep : String) : String :=
  match elems with
  | [] => ""
  | [e] => e
  | e :: rest => e ++ sep ++ Join rest sep

/-- An endpoint written as a `host:port` token. -/
def formatEndpoint (ep : Endpoint) : String :=
  ep.Host ++ ":" ++ ep.Port

/-- A list of endpoints written as a registry value: the `host:port` tokens
joined by `,`. -/
def formatEndpoints (Eps : List Endpoint) : String :=
  Join (Eps.map formatEndpoint) ","

/-- A text as the parser leaves it in an endpoint: no `,`, no `:`, no leading
space and no trailing space. -/
def Canonical (s : String) : Prop :=
  ',' ∉ s.data ∧ ':' ∉ s.data ∧ s.data.head? ≠ some ' ' ∧ s.data.getLast? ≠ some ' '

/-! ## Shared lemmas -/

theorem wrapInt_of_range {x : Int} (h0 : -9223372036854775808 ≤ x)
    (h1 : x ≤ 9223372036854775807) : wrapInt x = x := by
  unfold wrapInt
  omega

theorem Store_same {α : Type} (m : SyncMap α) (k : String) (v : α) :
    (m.Store k v) k = some v := by
  simp [SyncMap.Store]

theorem Store_other {α : Type} (m : SyncMap α) (k k' : String) (v : α)
    (h : k' ≠ k) : (m.Store k v) k' = m k' := by
  simp [SyncMap.Store, h]

theorem Start_state (reg : Registry) (o : EtcdEndpointManager) :
    (Start reg o).2.1 = { o with client := (Start reg o).2.1.client } := by
  unfold Start
  split
  · rfl
  · split
    · rfl
    · split <;> rfl

theorem lazyStart_state (reg : Registry) (o : EtcdEndpointManager) :
    (lazyStart reg o).1 = { o with client := (lazyStart reg o).1.client } := by
  unfold lazyStart
  split
  · exact Start_state reg o
  · rfl

theorem lazyStart_EndpointsMap (reg : Registry) (o : EtcdEndpointManager) :
    (lazyStart reg o).1.EndpointsMap = o.EndpointsMap := by
  rw [lazyStart_state]

theorem lazyStart_EndpointRotating (reg : Registry) (o : EtcdEndpointManager) :
    (lazyStart reg o).1.EndpointRotating = o.EndpointRotating := by
  rw [lazyStart_state]

theorem lazyStart_defaults (reg : Registry) (o : EtcdEndpointManager) :
    (lazyStart reg o).1.toInMemEndpointManager = o.toInMemEndpointManager := by
  rw [lazyStart_state]

theorem rotate_fst (o : EtcdEndpointManager) (serviceID : String) :
    (rotate o serviceID).1 = rotation o serviceID := rfl

theorem rotate_state (o : EtcdEndpointManager) (serviceID : String) :
    (rotate o serviceID).2 =
      { o with
        EndpointRotating :=
          o.EndpointRotating.Store serviceID (wrapInt (rotation o serviceID + 1)) } := by
  unfold rotate rotation SyncMap.LoadOrStore
  cases h : o.EndpointRotating serviceID with
  | some r => simp
  | none =>
    simp only [EtcdEndpointManager.mk.injEq, true_and]
    funext k
    simp only [SyncMap.Store]
    split <;> rfl

/-- An in-range index built from a non-negative counter selects an element. -/
theorem index_tmod (arr : List Endpoint) (c : Nat) (hpos : 0 < arr.length) :
    index arr (Int.tmod (c : Int) (arr.length : Int)) =
      some (arr.get ⟨c % arr.length, Nat.mod_lt _ hpos⟩) := by
  have hidx : Int.tmod (c : Int) (arr.length : Int) = ((c % arr.length : Nat) : Int) := by
    rw [Int.tmod_eq_emod (by omega) (by omega)]
    norm_cast
  rw [hidx, index, if_pos (Int.natCast_nonneg _), Int.toNat_ofNat]
  exact List.getElem?_eq_getElem _

/-- A cache hit: a non-empty cached list and a non-negative counter `c` give
the endpoint at index `c mod length`; the cache is left as it is and the
counter becomes `c + 1`, wrapped. -/
theorem GetEndpoint_hit (reg : Registry) (o : EtcdEndpointManager) (serviceID : String)
    (arr : List Endpoint) (c : Nat) (hpos : 0 < arr.length)
    (harr : o.EndpointsMap serviceID = some arr)
    (hc : rotation o serviceID = (c : Int)) :
    (GetEndpoint reg o serviceID).1 =
        .returned ((arr.get ⟨c % arr.length, Nat.mod_lt _ hpos⟩).Host,
          (arr.get ⟨c % arr.length, Nat.mod_lt _ hpos⟩).Port, none) ∧
      (GetEndpoint reg o serviceID).2.1.EndpointsMap = o.EndpointsMap ∧
      rotation (GetEndpoint reg o serviceID).2.1 serviceID = wrapInt (c + 1) := by
  have hmap := lazyStart_EndpointsMap reg o
  have hrot : rotation (lazyStart reg o).1 serviceID = (c : Int) := by
    rw [← hc]; unfold rotation; rw [lazyStart_EndpointRotating]
  have hres : resolve reg (lazyStart reg o).1 serviceID =
      (.returned ((arr.get ⟨c % arr.length, Nat.mod_lt _ hpos⟩).Host,
          (arr.get ⟨c % arr.length, Nat.mod_lt _ hpos⟩).Port, none),
        (rotate (lazyStart reg o).1 serviceID).2, []) := by
    unfold resolve
    simp only [SyncMap.Load, hmap, harr, rotate_fst, hrot, gt_iff_lt, hpos, if_true,
      index_tmod arr c hpos]
  unfold GetEndpoint
  simp only [hres, rotate_state, hrot]
  refine ⟨trivial, hmap, ?_⟩
  simp [rotation, SyncMap.LoadOrStore, Store_same]

/-- Consecutive cache hits from a non-negative counter `c`, as long as the
counters that are read stay in the range of `int`. -/
theorem GetEndpoints_hit (serviceID : String) (arr : List Endpoint) (hpos : 0 < arr.length) :
    ∀ (regs : List Registry) (o : EtcdEndpointManager) (c : Nat),
      o.EndpointsMap serviceID = some arr → rotation o serviceID = (c : Int) →
      (c : Int) + regs.length ≤ maxInt + 1 →
      (GetEndpoints serviceID o regs).1 =
        (List.range regs.length).map
          (fun i => found (arr.get ⟨(c + i) % arr.length, Nat.mod_lt _ hpos⟩)) := by
  intro regs
  induction regs with
  | nil => intro o c _ _ _; rfl
  | cons reg rest ih =>
    intro o c harr hc hmax
    obtain ⟨h1, h2, h3⟩ := GetEndpoint_hit reg o serviceID arr c hpos harr hc
    simp only [GetEndpoints, List.length_cons, List.range_succ_eq_map, List.map_cons,
      List.map_map, Nat.add_zero]
    rw [h1]
    cases rest with
    | nil => rfl
    | cons reg2 rest2 =>
      have hwrap : wrapInt ((c : Int) + 1) = ((c + 1 : Nat) : Int) := by
        simp only [List.length_cons, maxInt] at hmax
        rw [wrapInt_of_range (by omega) (by omega)]
        omega
      rw [ih (GetEndpoint reg o serviceID).2.1 (c + 1) (by rw [h2]; exact harr)
        (by rw [h3, hwrap]) (by simp only [List.length_cons] at hmax ⊢; push_cast; omega)]
      simp only [found, List.cons.injEq, true_and, List.map_inj_left, Function.comp]
      intro i _
      have : (c + 1 + i) % arr.length = (c + (i + 1)) % arr.length := by
        rw [Nat.add_assoc, Nat.add_comm 1 i]
      simp only [this]

/-- Counting up from `c` modulo `n` over `n` steps visits every index once. -/
theorem range_mod_perm (c n : Nat) :
    ((List.range n).map (fun i => (c + i) % n)).Perm (List.range n) := by
  have h : (List.range n).map (fun i => (c + i) % n) = (List.range n).rotate c := by
    apply List.ext_getElem
    · simp
    · intro i h1 h2
      simp only [List.length_map, List.length_range] at h1
      simp [List.getElem_rotate, Nat.add_comm]
  rw [h]
  exact List.rotate_perm _ _

/-! ## C1: round-robin rotation -/

/-- C1, as stated, fails when the counter overflows: with three cached
endpoints and the counter at the largest `int` (a value `c >= 0`), the first
of three consecutive lookups returns index 1, but the incremented counter
wraps to the smallest `int`, whose remainder modulo 3 is negative, and the
second and third lookups panic instead of returning indices 2 and 0. -/
theorem C1_round_robin_fails_at_overflow :
    overflowState.EndpointsMap "svc" = some [⟨"a", "1"⟩, ⟨"b", "2"⟩, ⟨"c", "3"⟩] ∧
      rotation overflowState "svc" = maxInt ∧ 0 ≤ rotation overflowState "svc" ∧
      (GetEndpoints "svc" overflowState [noRegistry, noRegistry, noRegistry]).1 =
        [.returned ("b", "2", none), .panicked, .panicked] ∧
      (GetEndpoints "svc" overflowState [noRegistry, noRegistry, noRegistry]).1 ≠
        [.returned ("b", "2", none), .returned ("c", "3", none), .returned ("a", "1", none)] := by
  decide

/-- C1 (amended): round-robin.  For a service whose cache entry is a list of
length N > 0 and a starting rotation counter c >= 0 with c + N - 1 within the
range of `int`, N consecutive `GetEndpoint` calls with nothing in between
return, in this order and each with a nil error, the endpoints at indices
c mod N, (c+1) mod N, ..., (c+N-1) mod N; these indices are the indices of the
list, each visited exactly once. -/
theorem C1_round_robin (o : EtcdEndpointManager) (serviceID : String)
    (arr : List Endpoint) (c : Nat) (regs : List Registry) (hpos : 0 < arr.length)
    (harr : o.EndpointsMap serviceID = some arr)
    (hc : rotation o serviceID = (c : Int))
    (hcalls : regs.length = arr.length)
    (hrange : (c : Int) + arr.length - 1 ≤ maxInt) :
    (GetEndpoints serviceID o regs).1 =
        (List.range arr.length).map
          (fun i => .returned
            ((arr.get ⟨(c + i) % arr.length, Nat.mod_lt _ hpos⟩).Host,
              (arr.get ⟨(c + i) % arr.length, Nat.mod_lt _ hpos⟩).Port, none)) ∧
      ((List.range arr.length).map (fun i => (c + i) % arr.length)).Perm
        (List.range arr.length) := by
  refine ⟨?_, range_mod_perm c arr.length⟩
  have h := GetEndpoints_hit serviceID arr hpos regs o c harr hc (by rw [hcalls]; omega)
  rw [h, hcalls]
  rfl

/-- C1 (amended) at a concrete input: two cached endpoints, counter 5. -/
theorem C1_round_robin_witness :
    (GetEndpoints "svc" twoEndpoints [noRegistry, noRegistry]).1 =
      [.returned ("b", "2", none), .returned ("a", "1", none)] :=
  (C1_round_robin twoEndpoints "svc" [⟨"a", "1"⟩, ⟨"b", "2"⟩] 5 [noRegistry, noRegistry]
    (by decide) (by decide) (by decide) (by decide) (by decide)).1

/-! ## C2: registry value parsing -/

/-- A sequence without the separator is a single piece. -/
theorem splitChars_of_not_mem (sep : Char) :
    ∀ cs : List Char, sep ∉ cs → splitChars sep cs = [cs] := by
  intro cs
  induction cs with
  | nil => intro _; rfl
  | cons c cs ih =>
    intro h
    simp only [List.mem_cons, not_or] at h
    have hc : c ≠ sep := fun e => h.1 e.symm
    simp only [splitChars, hc, if_false, ih h.2]

/-- There is one piece more than there are separators. -/
theorem splitChars_length (sep : Char) :
    ∀ cs : List Char, (splitChars sep cs).length = cs.count sep + 1 := by
  intro cs
  induction cs with
  | nil => rfl
  | cons c cs ih =>
    by_cases hc : c = sep
    · subst hc
      simp [splitChars, ih]
    · have hne : (c == sep) = false := by simpa using hc
      simp only [splitChars, hc, if_false]
      cases hs : splitChars sep cs with
      | nil => rw [hs] at ih; simp at ih
      | cons p rest =>
        rw [hs] at ih
        simp only [List.length_cons] at ih ⊢
        rw [List.count_cons, hne]
        simpa using ih

/-- The pieces of a sequence with exactly one separator: what precedes it and
what follows it. -/
theorem splitChars_count_one (sep : Char) :
    ∀ cs : List Char, cs.count sep = 1 →
      splitChars sep cs =
        [cs.takeWhile (fun c => c != sep), (cs.dropWhile (fun c => c != sep)).tail] := by
  intro cs
  induction cs with
  | nil => intro h; simp at h
  | cons c cs ih =>
    intro h
    by_cases hc : c = sep
    · subst hc
      have h0 : cs.count c = 0 := by simpa using h
      have hnot : c ∉ cs := List.count_eq_zero.mp h0
      simp [splitChars, splitChars_of_not_mem c cs hnot]
    · have hne : (c == sep) = false := by simpa using hc
      have h1 : cs.count sep = 1 := by
        rw [List.count_cons, hne] at h
        simpa using h
      simp [splitChars, hc, ih h1]

/-- The loop body of the parser appends what the specification assigns to the
token. -/
theorem appendHostPort_eq (Eps : List Endpoint) (token : String) :
    appendHostPort Eps token = Eps ++ (specEndpoint token).toList := by
  unfold appendHostPort specEndpoint Split
  by_cases h : token.data.count ':' = 1
  · simp [splitChars_count_one ':' token.data h, h]
  · have hlen := splitChars_length ':' token.data
    rw [if_neg h]
    split
    · rename_i a b heq
      have := congrArg List.length heq
      simp only [List.length_map, List.length_cons, List.length_nil] at this
      omega
    · simp

/-- The accumulating loop of the parser is a `filterMap`. -/
theorem foldl_appendHostPort (tokens : List String) :
    ∀ Eps : List Endpoint,
      tokens.foldl appendHostPort Eps = Eps ++ tokens.filterMap specEndpoint := by
  induction tokens with
  | nil => intro Eps; simp
  | cons t ts ih =>
    intro Eps
    rw [List.foldl_cons, ih, appendHostPort_eq]
    cases h : specEndpoint t <;> simp [List.filterMap_cons, h]

theorem parseEndpoints_eq_spec (val : String) : parseEndpoints val = specParse val := by
  unfold parseEndpoints specParse
  rw [foldl_appendHostPort]
  rfl

/-- C2: registry value parsing.  For every string `val`,
`parseServiceFromString(id, val)` returns, in the order of the comma-separated
tokens of `val`, exactly one endpoint for each token that splits on `:` into
exactly two components, host and port each trimmed of surrounding spaces, and
nothing for every other token; the three values of the specification parse as
it says. -/
theorem C2_parse_refines_spec :
    (∀ (o : EtcdEndpointManager) (serviceID val : String),
        (parseServiceFromString o serviceID val).1 = specParse val) ∧
      (∀ (o : EtcdEndpointManager) (serviceID : String),
        (parseServiceFromString o serviceID "h1:1,h2:2").1 = [⟨"h1", "1"⟩, ⟨"h2", "2"⟩] ∧
        (parseServiceFromString o serviceID "h1:1,bad,h3:3").1 =
          [⟨"h1", "1"⟩, ⟨"h3", "3"⟩] ∧
        (parseServiceFromString o serviceID "10.0.0.1:8080, 10.0.0.2: 8081").1 =
          [⟨"10.0.0.1", "8080"⟩, ⟨"10.0.0.2", "8081"⟩]) := by
  refine ⟨fun o serviceID val => parseEndpoints_eq_spec val, fun o serviceID => ⟨?_, ?_, ?_⟩⟩
  · show parseEndpoints "h1:1,h2:2" = _
    decide
  · show parseEndpoints "h1:1,bad,h3:3" = _
    decide
  · show parseEndpoints "10.0.0.1:8080, 10.0.0.2: 8081" = _
    decide

/-! ## Frame lemmas: what each operation leaves unchanged -/

theorem parseServiceFromString_state (o : EtcdEndpointManager) (serviceID val : String) :
    (parseServiceFromString o serviceID val).2 =
      { o with EndpointsMap := o.EndpointsMap.Store serviceID (parseEndpoints val) } := rfl

/-- The fetch loop writes nothing but the endpoint cache. -/
theorem fetchLoop_frame (serviceID : String) :
    ∀ (Kvs : List KeyValue) (o : EtcdEndpointManager),
      (fetchLoop serviceID o Kvs).2 =
        { o with EndpointsMap := (fetchLoop serviceID o Kvs).2.EndpointsMap } := by
  intro Kvs
  induction Kvs with
  | nil => intro o; rfl
  | cons kv Kvs ih =>
    intro o
    unfold fetchLoop
    split
    · split
      · rename_i heq
        rw [Prod.mk.injEq] at heq
        rw [← heq.2, parseServiceFromString_state]
      · rename_i o1 heq
        rw [Prod.mk.injEq] at heq
        rw [ih o1, ← heq.2, parseServiceFromString_state]
    · exact ih o

/-- The fetch loop writes the cache under no key but `serviceID`. -/
theorem fetchLoop_other (serviceID k : String) (hk : k ≠ serviceID) :
    ∀ (Kvs : List KeyValue) (o : EtcdEndpointManager),
      (fetchLoop serviceID o Kvs).2.EndpointsMap k = o.EndpointsMap k := by
  intro Kvs
  induction Kvs with
  | nil => intro o; rfl
  | cons kv Kvs ih =>
    intro o
    unfold fetchLoop
    split
    · split
      · rename_i heq
        rw [Prod.mk.injEq] at heq
        rw [← heq.2, parseServiceFromString_state]
        exact Store_other _ _ _ _ hk
      · rename_i o1 heq
        rw [Prod.mk.injEq] at heq
        rw [ih o1, ← heq.2, parseServiceFromString_state]
        exact Store_other _ _ _ _ hk
    · exact ih o

/-- After the lazy connect, a lookup changes nothing but the cache and the
rotation counter of `serviceID`, which becomes the wrapped successor of the
value read. -/
theorem resolve_frame (reg : Registry) (o : EtcdEndpointManager) (serviceID : String) :
    (resolve reg o serviceID).2.1 =
      { o with
        EndpointsMap := (resolve reg o serviceID).2.1.EndpointsMap
        EndpointRotating :=
          o.EndpointRotating.Store serviceID (wrapInt (rotation o serviceID + 1)) } := by
  unfold resolve
  simp only [rotate_state, rotate_fst]
  split
  · split
    · split <;> rfl
    · rfl
  · split
    · split
      · split
        · rename_i heq
          have h2 := congrArg Prod.snd heq
          simp only at h2
          rw [← h2, fetchLoop_frame]
        · rename_i heq
          have h2 := congrArg Prod.snd heq
          simp only at h2
          rw [← h2, fetchLoop_frame]
      · rfl
    · rfl

/-- A lookup writes the cache under no key but `serviceID`. -/
theorem resolve_other (reg : Registry) (o : EtcdEndpointManager) (serviceID k : String)
    (hk : k ≠ serviceID) :
    (resolve reg o serviceID).2.1.EndpointsMap k = o.EndpointsMap k := by
  unfold resolve
  simp only [rotate_state, rotate_fst]
  split
  · split
    · split <;> rfl
    · rfl
  · split
    · split
      · split
        · rename_i heq
          have h2 := congrArg Prod.snd heq
          simp only at h2
          rw [← h2, fetchLoop_other serviceID k hk]
        · rename_i heq
          have h2 := congrArg Prod.snd heq
          simp only at h2
          rw [← h2, fetchLoop_other serviceID k hk]
      · rfl
    · rfl

/-- A lookup for a service that has a cache entry does not write the cache. -/
theorem resolve_present (reg : Registry) (o : EtcdEndpointManager) (serviceID : String)
    (arr : List Endpoint) (harr : o.EndpointsMap serviceID = some arr) :
    (resolve reg o serviceID).2.1.EndpointsMap = o.EndpointsMap := by
  unfold resolve
  simp only [SyncMap.Load, harr, rotate_state, rotate_fst]
  split
  · split <;> rfl
  · rfl

/-- The state after `GetEndpoint`: the client is the one left by the lazy
connect, the rotation counter of `serviceID` has advanced, and nothing else
has changed but, possibly, the cache. -/
theorem GetEndpoint_frame (reg : Registry) (o : EtcdEndpointManager) (serviceID : String) :
    (GetEndpoint reg o serviceID).2.1 =
      { o with
        client := (lazyStart reg o).1.client
        EndpointsMap := (GetEndpoint reg o serviceID).2.1.EndpointsMap
        EndpointRotating :=
          o.EndpointRotating.Store serviceID (wrapInt (rotation o serviceID + 1)) } := by
  have h := resolve_frame reg (lazyStart reg o).1 serviceID
  have hs := lazyStart_state reg o
  unfold GetEndpoint
  simp only
  rw [h, hs]
  simp only [rotation]

theorem GetEndpoint_other (reg : Registry) (o : EtcdEndpointManager) (serviceID k : String)
    (hk : k ≠ serviceID) :
    (GetEndpoint reg o serviceID).2.1.EndpointsMap k = o.EndpointsMap k := by
  unfold GetEndpoint
  simp only
  rw [resolve_other reg _ serviceID k hk, lazyStart_EndpointsMap]

theorem GetEndpoint_present (reg : Registry) (o : EtcdEndpointManager) (serviceID : String)
    (arr : List Endpoint) (harr : o.EndpointsMap serviceID = some arr) :
    (GetEndpoint reg o serviceID).2.1.EndpointsMap = o.EndpointsMap := by
  unfold GetEndpoint
  simp only
  rw [resolve_present reg _ serviceID arr (by rw [lazyStart_EndpointsMap]; exact harr),
    lazyStart_EndpointsMap]

theorem GetEndpoint_defaults (reg : Registry) (o : EtcdEndpointManager) (serviceID : String) :
    (GetEndpoint reg o serviceID).2.1.toInMemEndpointManager = o.toInMemEndpointManager := by
  rw [GetEndpoint_frame]

/-- The state after `SetDefaultEntpoint`: the default is stored, and when a
client exists the state is then the one left by the inner `GetEndpoint`. -/
theorem SetDefaultEntpoint_state (reg : Registry) (o : EtcdEndpointManager)
    (serviceID host port : String) :
    (SetDefaultEntpoint reg o serviceID host port).2.1 =
      if o.client.isSome then
        (GetEndpoint reg
          { o with
            toInMemEndpointManager :=
              (o.toInMemEndpointManager.SetDefaultEntpoint serviceID host port).2 }
          serviceID).2.1
      else
        { o with
          toInMemEndpointManager :=
            (o.toInMemEndpointManager.SetDefaultEntpoint serviceID host port).2 } := by
  unfold SetDefaultEntpoint
  simp only
  split
  · split
    · rename_i heq; rw [heq]
    · rename_i heq; rw [heq]
  · rfl

theorem SetDefaultEntpoint_defaults (reg : Registry) (o : EtcdEndpointManager)
    (serviceID host port : String) :
    (SetDefaultEntpoint reg o serviceID host port).2.1.toInMemEndpointManager =
      (o.toInMemEndpointManager.SetDefaultEntpoint serviceID host port).2 := by
  rw [SetDefaultEntpoint_state]
  split
  · rw [GetEndpoint_defaults]
  · rfl

/-- The cache entry of `k` survives a call when the call is for another
service or `k` already has an entry. -/
theorem Call_run_keeps (reg : Registry) (o : EtcdEndpointManager) (c : Call) (k : String)
    (arr : List Endpoint) (hk : o.EndpointsMap k = some arr) :
    (c.run reg o).EndpointsMap k = some arr := by
  have key : ∀ (o2 : EtcdEndpointManager) (serviceID : String),
      o2.EndpointsMap k = some arr →
      (GetEndpoint reg o2 serviceID).2.1.EndpointsMap k = some arr := by
    intro o2 serviceID h2
    by_cases h : k = serviceID
    · subst h
      rw [GetEndpoint_present reg o2 k arr h2, h2]
    · rw [GetEndpoint_other reg o2 serviceID k h, h2]
  cases c with
  | GetEndpoint serviceID => exact key o serviceID hk
  | SetDefaultEntpoint serviceID host port =>
    simp only [Call.run]
    rw [SetDefaultEntpoint_state]
    split
    · exact key _ serviceID hk
    · exact hk

theorem MonitorChan_single (o : EtcdEndpointManager) (ev : Event) :
    MonitorChan o [⟨[ev]⟩] = handleEvent o ev := rfl

/-- The cache entry of `k` survives every action that is not a registry
update for `k`. -/
theorem Action_run_keeps (o : EtcdEndpointManager) (a : Action) (k : String)
    (arr : List Endpoint) (hk : o.EndpointsMap k = some arr) (ha : a.updates k = false) :
    (a.run o).EndpointsMap k = some arr := by
  cases a with
  | call reg c => exact Call_run_keeps reg o c k arr hk
  | event ev =>
    simp only [Action.run, MonitorChan_single, handleEvent]
    split
    · rename_i hput
      have hkey : k ≠ ev.Kv.Key := by
        intro e
        simp [Action.updates, hput, e] at ha
      rw [parseServiceFromString_state]
      simp only
      rw [Store_other _ _ _ _ hkey, hk]
    · exact hk

theorem runActions_keeps (k : String) (arr : List Endpoint) :
    ∀ (actions : List Action) (o : EtcdEndpointManager),
      o.EndpointsMap k = some arr → (∀ a ∈ actions, a.updates k = false) →
      (runActions o actions).EndpointsMap k = some arr := by
  intro actions
  induction actions with
  | nil => intro o hk _; exact hk
  | cons a rest ih =>
    intro o hk hall
    simp only [runActions, List.foldl_cons]
    exact ih (a.run o) (Action_run_keeps o a k arr hk (hall a (List.mem_cons_self _ _)))
      (fun b hb => hall b (List.mem_cons_of_mem _ hb))

/-- A lookup on a cache entry of a single endpoint returns that endpoint,
whatever the rotation counter. -/
theorem GetEndpoint_single (reg : Registry) (o : EtcdEndpointManager) (serviceID : String)
    (ep : Endpoint) (h : o.EndpointsMap serviceID = some [ep]) :
    (GetEndpoint reg o serviceID).1 = .returned (ep.Host, ep.Port, none) := by
  unfold GetEndpoint resolve
  simp only [SyncMap.Load, lazyStart_EndpointsMap, h, List.length_singleton, gt_iff_lt,
    Nat.lt_one_iff, Nat.cast_one, Int.tmod_one, index]
  simp

/-! ## C3 and C4: watch updates -/

/-- C3: a watch update is visible to lookups.  For every resolver state, after
`MonitorChan` handles a PUT event with key `svcA` and value `h:9999`, and then
after any sequence of calls and watch events none of which is a further update
for `svcA`, `GetEndpoint("svcA")` returns host `h`, port `9999` and a nil
error. -/
theorem C3_watch_update_visible (o : EtcdEndpointManager) (actions : List Action)
    (reg : Registry) (hno : ∀ a ∈ actions, a.updates "svcA" = false) :
    (GetEndpoint reg
      (runActions (MonitorChan o [⟨[⟨EventType.PUT, ⟨"svcA", "h:9999"⟩⟩]⟩]) actions)
      "svcA").1 = .returned ("h", "9999", none) := by
  have hput : (MonitorChan o [⟨[⟨EventType.PUT, ⟨"svcA", "h:9999"⟩⟩]⟩]).EndpointsMap "svcA"
      = some [⟨"h", "9999"⟩] := by
    rw [MonitorChan_single]
    simp only [handleEvent, if_true, parseServiceFromString_state, Store_same]
    have : parseEndpoints "h:9999" = [⟨"h", "9999"⟩] := by decide
    rw [this]
  exact GetEndpoint_single reg _ "svcA" ⟨"h", "9999"⟩
    (runActions_keeps "svcA" _ actions _ hput hno)

/-- C3 at a concrete input: a stale two-endpoint entry with a negative
counter, then the update, two lookups of `svcA`, a lookup of another service
that is fetched from the registry, a new default for `svcA` and a DELETE
event for `svcA`. -/
theorem C3_watch_update_visible_witness :
    (GetEndpoint liveRegistry
      (runActions (MonitorChan staleState [⟨[⟨EventType.PUT, ⟨"svcA", "h:9999"⟩⟩]⟩])
        [.call liveRegistry (.GetEndpoint "svcA"), .call liveRegistry (.GetEndpoint "svcA"),
          .call liveRegistry (.GetEndpoint "svcB"),
          .call liveRegistry (.SetDefaultEntpoint "svcA" "d" "1"),
          .event ⟨EventType.DELETE, ⟨"svcA", ""⟩⟩])
      "svcA").1 = .returned ("h", "9999", none) :=
  C3_watch_update_visible staleState _ liveRegistry (by decide)

/-- C4: a watch update is a wholesale, key-local replace.  For every PUT event
with key `k` and value `v`, after `MonitorChan` handles it the cache entry of
`k` is the parse of `v` whatever the entry held before, and the cache entry
of every other service, every rotation counter, the default-endpoint table and
the connection are unchanged. -/
theorem C4_watch_update_replaces (o : EtcdEndpointManager) (k v : String) :
    (MonitorChan o [⟨[⟨EventType.PUT, ⟨k, v⟩⟩]⟩]).EndpointsMap k =
        some (parseServiceFromString o k v).1 ∧
      (parseServiceFromString o k v).1 = specParse v ∧
      (∀ k2 : String, k2 ≠ k →
        (MonitorChan o [⟨[⟨EventType.PUT, ⟨k, v⟩⟩]⟩]).EndpointsMap k2 = o.EndpointsMap k2) ∧
      (MonitorChan o [⟨[⟨EventType.PUT, ⟨k, v⟩⟩]⟩]).EndpointRotating = o.EndpointRotating ∧
      (MonitorChan o [⟨[⟨EventType.PUT, ⟨k, v⟩⟩]⟩]).toInMemEndpointManager =
        o.toInMemEndpointManager ∧
      (MonitorChan o [⟨[⟨EventType.PUT, ⟨k, v⟩⟩]⟩]).client = o.client := by
  rw [MonitorChan_single]
  have hs : handleEvent o ⟨EventType.PUT, ⟨k, v⟩⟩ =
      { o with EndpointsMap := o.EndpointsMap.Store k (parseEndpoints v) } := rfl
  rw [hs]
  exact ⟨Store_same _ _ _, parseEndpoints_eq_spec v, fun k2 h2 => Store_other _ _ _ _ h2,
    rfl, rfl, rfl⟩

/-- C4 at a concrete input: the stale two-endpoint entry of `svcA` is replaced
by the single endpoint of the new value, not merged with it, and the entry of
`svcB` is as before. -/
theorem C4_watch_update_replaces_witness :
    (MonitorChan staleState [⟨[⟨EventType.PUT, ⟨"svcA", "h:9999"⟩⟩]⟩]).EndpointsMap "svcA" =
        some [⟨"h", "9999"⟩] ∧
      (MonitorChan staleState [⟨[⟨EventType.PUT, ⟨"svcA", "h:9999"⟩⟩]⟩]).EndpointsMap "svcB" =
        staleState.EndpointsMap "svcB" :=
  ⟨(C4_watch_update_replaces staleState "svcA" "h:9999").1,
    (C4_watch_update_replaces staleState "svcA" "h:9999").2.2.1 "svcB" (by decide)⟩

/-! ## The static fallback and the lazy connect -/

/-- A default that was just stored is what the fallback lookup returns. -/
theorem InMem_get_set (m : InMemEndpointManager) (serviceID host port : String) :
    (m.SetDefaultEntpoint serviceID host port).2.GetEndpoint serviceID =
      .returned (host, port, none) := by
  simp [InMemEndpointManager.SetDefaultEntpoint, InMemEndpointManager.GetEndpoint,
    List.lookup_cons]

theorem lookup_filter_ne (k serviceID : String) (hk : k ≠ serviceID) :
    ∀ l : List (String × Endpoint),
      (l.filter (fun kv => kv.1 != serviceID)).lookup k = l.lookup k := by
  intro l
  induction l with
  | nil => rfl
  | cons kv l ih =>
    obtain ⟨a, b⟩ := kv
    by_cases h : a = serviceID
    · subst h
      have hne : (k == a) = false := by simpa using hk
      simp [List.filter_cons, List.lookup_cons, hne, ih]
    · by_cases hk2 : k = a
      · simp [List.filter_cons, h, List.lookup_cons, hk2]
      · have hne : (k == a) = false := by simpa using hk2
        simp [List.filter_cons, h, List.lookup_cons, hne, ih]

/-- Storing a default for one service leaves the fallback lookup of every
other service as it was. -/
theorem InMem_get_set_other (m : InMemEndpointManager) (serviceID host port k : String)
    (hk : k ≠ serviceID) :
    (m.SetDefaultEntpoint serviceID host port).2.GetEndpoint k = m.GetEndpoint k := by
  have hne : (k == serviceID) = false := by simpa using hk
  simp only [InMemEndpointManager.SetDefaultEntpoint, InMemEndpointManager.GetEndpoint,
    List.lookup_cons, hne, lookup_filter_ne k serviceID hk]

/-- Storing the same default twice is storing it once. -/
theorem InMem_set_set (m : InMemEndpointManager) (serviceID host port : String) :
    ((m.SetDefaultEntpoint serviceID host port).2.SetDefaultEntpoint serviceID host port).2 =
      (m.SetDefaultEntpoint serviceID host port).2 := by
  simp [InMemEndpointManager.SetDefaultEntpoint, List.filter_cons, List.filter_filter]

/-- With no client and no way to get one, the lazy connect changes nothing
and sends nothing. -/
theorem lazyStart_fails (reg : Registry) (o : EtcdEndpointManager) (hclient : o.client = none)
    (hconn : o.EtcdEndpoints = [] ∨ reg.New o.EtcdEndpoints = none) :
    lazyStart reg o = (o, []) := by
  unfold lazyStart Start
  rcases hconn with h | h
  · simp [hclient, h]
  · simp only [hclient, Option.isNone_none, if_true, Option.isSome_none, Bool.false_eq_true,
      if_false, h]
    split <;> rfl

/-- The fetch loop ends without an endpoint when every pair for `serviceID`
parses to the empty list. -/
theorem fetchLoop_none (serviceID : String) :
    ∀ (Kvs : List KeyValue) (o : EtcdEndpointManager),
      (∀ kv ∈ Kvs, kv.Key = serviceID → parseEndpoints kv.Value = []) →
      (fetchLoop serviceID o Kvs).1 = none := by
  intro Kvs
  induction Kvs with
  | nil => intro o _; rfl
  | cons kv Kvs ih =>
    intro o h
    have hrest : ∀ kv2 ∈ Kvs, kv2.Key = serviceID → parseEndpoints kv2.Value = [] :=
      fun kv2 h2 => h kv2 (List.mem_cons_of_mem _ h2)
    unfold fetchLoop
    split
    · rename_i hkey
      have hempty := h kv (List.mem_cons_self _ _) hkey
      simp only [parseServiceFromString, hempty]
      exact ih _ hrest
    · exact ih o hrest

/-- A cache miss that gets no endpoint from the registry is answered by the
fallback lookup. -/
theorem resolve_fallback (reg : Registry) (o : EtcdEndpointManager) (serviceID : String)
    (hcache : o.EndpointsMap serviceID = none)
    (hreg : o.client = none ∨ reg.Get serviceID = none ∨
      ∃ Kvs, reg.Get serviceID = some Kvs ∧
        ∀ kv ∈ Kvs, kv.Key = serviceID → parseEndpoints kv.Value = []) :
    (resolve reg o serviceID).1 = o.toInMemEndpointManager.GetEndpoint serviceID := by
  unfold resolve
  simp only [SyncMap.Load, hcache, rotate_state]
  rcases hreg with h | h | ⟨Kvs, h, hall⟩
  · simp [h]
  · simp only [h]
    split <;> rfl
  · simp only [h]
    split
    · have hnone := fetchLoop_none serviceID Kvs
        { o with
          EndpointRotating :=
            o.EndpointRotating.Store serviceID (wrapInt (rotation o serviceID + 1)) } hall
      split
      · rename_i heq
        rw [heq] at hnone
        simp at hnone
      · rename_i o1 heq
        have h2 := congrArg Prod.snd heq
        simp only at h2
        rw [← h2, fetchLoop_frame]
    · rfl

/-- A lookup that starts with no client and no cache entry and gets no
endpoint from the registry is answered by the fallback lookup. -/
theorem GetEndpoint_fallback (reg : Registry) (o : EtcdEndpointManager) (serviceID : String)
    (hclient : o.client = none) (hcache : o.EndpointsMap serviceID = none)
    (hreg : o.EtcdEndpoints = [] ∨ reg.New o.EtcdEndpoints = none ∨
      reg.Get serviceID = none ∨
      ∃ Kvs, reg.Get serviceID = some Kvs ∧
        ∀ kv ∈ Kvs, kv.Key = serviceID → parseEndpoints kv.Value = []) :
    (GetEndpoint reg o serviceID).1 = o.toInMemEndpointManager.GetEndpoint serviceID := by
  unfold GetEndpoint
  simp only
  rw [resolve_fallback reg _ serviceID (by rw [lazyStart_EndpointsMap]; exact hcache)]
  · rw [lazyStart_defaults]
  · rcases hreg with h | h | h | h
    · left
      rw [lazyStart_fails reg o hclient (Or.inl h)]
      exact hclient
    · left
      rw [lazyStart_fails reg o hclient (Or.inr h)]
      exact hclient
    · right; left; exact h
    · right; right; exact h

/-! ## C5: default fallback -/

/-- C5, as stated, fails when the lazy connect succeeds: on a manager with no
client and an empty cache, after the default `d:1` is set for `svc`,
`GetEndpoint("svc")` connects, fetches the registry value `r:1` and returns
the registry endpoint, not the default. -/
theorem C5_default_overridden_by_registry :
    unconnected.client = none ∧ unconnected.EndpointsMap "svc" = none ∧
      (SetDefaultEntpoint liveRegistry unconnected "svc" "d" "1").1 = .returned none ∧
      (GetEndpoint liveRegistry
        (SetDefaultEntpoint liveRegistry unconnected "svc" "d" "1").2.1 "svc").1 =
        .returned ("r", "1", none) ∧
      (GetEndpoint liveRegistry
        (SetDefaultEntpoint liveRegistry unconnected "svc" "d" "1").2.1 "svc").1 ≠
        .returned ("d", "1", none) := by
  decide

/-- C5 (amended): default fallback.  On a manager with no client and no cache
entry for `id`, `SetDefaultEntpoint(id, host, port)` returns a nil error and
the following `GetEndpoint(id)` returns exactly `(host, port)` with a nil
error, provided that lookup gets no endpoint from the registry: its lazy
connect does not succeed (the bootstrap list is empty or the connection
fails), or its one-shot fetch fails or holds no pair with key `id` whose value
parses to a non-empty list. -/
theorem C5_default_fallback (o : EtcdEndpointManager) (reg1 reg2 : Registry)
    (serviceID host port : String) (hclient : o.client = none)
    (hcache : o.EndpointsMap serviceID = none)
    (hreg : o.EtcdEndpoints = [] ∨ reg2.New o.EtcdEndpoints = none ∨
      reg2.Get serviceID = none ∨
      ∃ Kvs, reg2.Get serviceID = some Kvs ∧
        ∀ kv ∈ Kvs, kv.Key = serviceID → parseEndpoints kv.Value = []) :
    (SetDefaultEntpoint reg1 o serviceID host port).1 = .returned none ∧
      (GetEndpoint reg2 (SetDefaultEntpoint reg1 o serviceID host port).2.1 serviceID).1 =
        .returned (host, port, none) := by
  have hset : SetDefaultEntpoint reg1 o serviceID host port =
      (.returned none,
        { o with
          toInMemEndpointManager :=
            (o.toInMemEndpointManager.SetDefaultEntpoint serviceID host port).2 }, []) := by
    unfold SetDefaultEntpoint
    simp [hclient]
  rw [hset]
  refine ⟨rfl, ?_⟩
  have hget := GetEndpoint_fallback reg2
    { o with
      toInMemEndpointManager :=
        (o.toInMemEndpointManager.SetDefaultEntpoint serviceID host port).2 }
    serviceID hclient hcache hreg
  rw [hget]
  exact InMem_get_set _ _ _ _

/-- C5 (amended) at a concrete input: a bootstrap address that cannot be
reached. -/
theorem C5_default_fallback_witness :
    (GetEndpoint noRegistry
      (SetDefaultEntpoint noRegistry unconnected "svc" "d" "1").2.1 "svc").1 =
      .returned ("d", "1", none) :=
  (C5_default_fallback unconnected noRegistry noRegistry "svc" "d" "1" (by decide)
    (by decide) (Or.inr (Or.inl (by decide)))).2

/-! ## Fallback-only mode -/

/-- Without a client a lookup does not write the cache and sends nothing. -/
theorem resolve_no_client (reg : Registry) (o : EtcdEndpointManager) (serviceID : String)
    (hclient : o.client = none) :
    (resolve reg o serviceID).2.1.EndpointsMap = o.EndpointsMap ∧
      (resolve reg o serviceID).2.2 = [] := by
  unfold resolve
  simp only [rotate_state, hclient]
  split
  · split
    · split <;> exact ⟨rfl, rfl⟩
    · exact ⟨rfl, rfl⟩
  · exact ⟨rfl, rfl⟩

theorem FallbackOnly_GetEndpoint (reg : Registry) (o : EtcdEndpointManager)
    (serviceID : String) (h : FallbackOnly o) :
    FallbackOnly (GetEndpoint reg o serviceID).2.1 ∧ (GetEndpoint reg o serviceID).2.2 = [] := by
  obtain ⟨hclient, hboot, hcache⟩ := h
  have hstart := lazyStart_fails reg o hclient (Or.inl hboot)
  have hres := resolve_no_client reg o serviceID hclient
  have hstate := GetEndpoint_frame reg o serviceID
  have hmap : (GetEndpoint reg o serviceID).2.1.EndpointsMap = o.EndpointsMap := by
    unfold GetEndpoint
    simp only [hstart]
    exact hres.1
  refine ⟨⟨?_, ?_, ?_⟩, ?_⟩
  · rw [hstate, hstart]; exact hclient
  · rw [hstate]; exact hboot
  · intro k; rw [hmap]; exact hcache k
  · unfold GetEndpoint
    simp only [hstart]
    rw [hres.2]
    rfl

theorem FallbackOnly_Call_run (reg : Registry) (o : EtcdEndpointManager) (c : Call)
    (h : FallbackOnly o) : FallbackOnly (c.run reg o) := by
  cases c with
  | GetEndpoint serviceID => exact (FallbackOnly_GetEndpoint reg o serviceID h).1
  | SetDefaultEntpoint serviceID host port =>
    simp only [Call.run]
    rw [SetDefaultEntpoint_state]
    simp only [h.1, Option.isSome_none, Bool.false_eq_true, if_false]
    exact ⟨rfl, h.2.1, h.2.2⟩

theorem FallbackOnly_runCalls :
    ∀ (calls : List (Registry × Call)) (o : EtcdEndpointManager),
      FallbackOnly o → FallbackOnly (runCalls o calls) := by
  intro calls
  induction calls with
  | nil => intro o h; exact h
  | cons rc rest ih =>
    intro o h
    simp only [runCalls, List.foldl_cons]
    exact ih _ (FallbackOnly_Call_run rc.1 o rc.2 h)

theorem FallbackOnly_New : FallbackOnly (NewEtcdEndpointManager []) :=
  ⟨rfl, rfl, fun _ => rfl⟩

/-- The fallback lookup of `k` is the same after a sequence of calls none of
which sets a default for `k`. -/
theorem runCalls_defaults_other (k : String) :
    ∀ (calls : List (Registry × Call)) (o : EtcdEndpointManager),
      (∀ rc ∈ calls, rc.2.setsDefault k = false) →
      (runCalls o calls).toInMemEndpointManager.GetEndpoint k =
        o.toInMemEndpointManager.GetEndpoint k := by
  intro calls
  induction calls with
  | nil => intro o _; rfl
  | cons rc rest ih =>
    intro o h
    simp only [runCalls, List.foldl_cons]
    have hrest := ih (rc.2.run rc.1 o) (fun rc2 h2 => h rc2 (List.mem_cons_of_mem _ h2))
    simp only [runCalls] at hrest
    rw [hrest]
    have hrc := h rc (List.mem_cons_self _ _)
    cases hc : rc.2 with
    | GetEndpoint serviceID =>
      simp only [Call.run]
      rw [GetEndpoint_defaults]
    | SetDefaultEntpoint serviceID host port =>
      simp only [Call.run]
      rw [SetDefaultEntpoint_defaults]
      have hne : k ≠ serviceID := by
        intro e
        subst e
        simp [hc, Call.setsDefault] at hrc
      exact InMem_get_set_other _ _ _ _ _ hne

/-! ## C6: not found -/

/-- C6: NotFound.  On a manager constructed with an empty bootstrap list, after
any sequence of `GetEndpoint` and `SetDefaultEntpoint` calls none of which sets
a default for `id`, `GetEndpoint(id)` returns the not-found error with empty
host and port, which is exactly the result of the fallback lookup. -/
theorem C6_not_found (calls : List (Registry × Call)) (reg : Registry) (serviceID : String)
    (hnodefault : ∀ rc ∈ calls, rc.2.setsDefault serviceID = false) :
    (GetEndpoint reg (runCalls (NewEtcdEndpointManager []) calls) serviceID).1 =
        .returned ("", "", some GoError.notFound) ∧
      (GetEndpoint reg (runCalls (NewEtcdEndpointManager []) calls) serviceID).1 =
        (runCalls (NewEtcdEndpointManager []) calls).toInMemEndpointManager.GetEndpoint
          serviceID := by
  obtain ⟨hclient, hboot, hcache⟩ := FallbackOnly_runCalls calls _ FallbackOnly_New
  have hget := GetEndpoint_fallback reg (runCalls (NewEtcdEndpointManager []) calls) serviceID
    hclient (hcache serviceID) (Or.inl hboot)
  have hdef := runCalls_defaults_other serviceID calls (NewEtcdEndpointManager []) hnodefault
  refine ⟨?_, hget⟩
  rw [hget, hdef]
  rfl

/-- C6 at a concrete input: a lookup of `svc` after a default was set for
another service and `svc` was looked up once already. -/
theorem C6_not_found_witness :
    (GetEndpoint liveRegistry
      (runCalls (NewEtcdEndpointManager [])
        [(liveRegistry, .SetDefaultEntpoint "other" "d" "1"),
          (liveRegistry, .GetEndpoint "svc")])
      "svc").1 = .returned ("", "", some GoError.notFound) :=
  (C6_not_found [(liveRegistry, .SetDefaultEntpoint "other" "d" "1"),
    (liveRegistry, .GetEndpoint "svc")] liveRegistry "svc" (by decide)).1

/-! ## C8: fallback-only mode is stable -/

/-- C8: fallback-only mode is stable.  For a manager constructed by
`NewEtcdEndpointManager` with an empty bootstrap list, after every finite
sequence of `GetEndpoint` and `SetDefaultEntpoint` calls the client is still
nil, `Start` returns false and changes nothing, the endpoint cache is still
empty, and every `GetEndpoint` answers with the fallback lookup of the
default-endpoint table without sending anything to the registry. -/
theorem C8_fallback_only_stable (calls : List (Registry × Call)) :
    (runCalls (NewEtcdEndpointManager []) calls).client = none ∧
      (∀ reg : Registry,
        Start reg (runCalls (NewEtcdEndpointManager []) calls) =
          (false, runCalls (NewEtcdEndpointManager []) calls, [])) ∧
      (∀ k : String, (runCalls (NewEtcdEndpointManager []) calls).EndpointsMap k = none) ∧
      (∀ (reg : Registry) (serviceID : String),
        (GetEndpoint reg (runCalls (NewEtcdEndpointManager []) calls) serviceID).1 =
            (runCalls (NewEtcdEndpointManager []) calls).toInMemEndpointManager.GetEndpoint
              serviceID ∧
          (GetEndpoint reg (runCalls (NewEtcdEndpointManager []) calls) serviceID).2.2 =
            []) := by
  have hinv := FallbackOnly_runCalls calls _ FallbackOnly_New
  obtain ⟨hclient, hboot, hcache⟩ := hinv
  refine ⟨hclient, ?_, hcache, ?_⟩
  · intro reg
    unfold Start
    simp [hclient, hboot]
  · intro reg serviceID
    exact ⟨GetEndpoint_fallback reg _ serviceID hclient (hcache serviceID) (Or.inl hboot),
      (FallbackOnly_GetEndpoint reg _ serviceID ⟨hclient, hboot, hcache⟩).2⟩

/-! ## C9: setting a default is idempotent -/

/-- C9: `SetDefaultEntpoint` is idempotent on the fallback table.  For every
manager state and every id, host and port, calling
`SetDefaultEntpoint(id, host, port)` twice leaves the default-endpoint table in
the same state as calling it once, so the fallback lookup of every service id
is the same. -/
theorem C9_set_default_idempotent (o : EtcdEndpointManager) (reg1 reg2 : Registry)
    (serviceID host port : String) :
    (SetDefaultEntpoint reg2 (SetDefaultEntpoint reg1 o serviceID host port).2.1
        serviceID host port).2.1.toInMemEndpointManager =
        (SetDefaultEntpoint reg1 o serviceID host port).2.1.toInMemEndpointManager ∧
      ∀ k : String,
        (SetDefaultEntpoint reg2 (SetDefaultEntpoint reg1 o serviceID host port).2.1
          serviceID host port).2.1.toInMemEndpointManager.GetEndpoint k =
          (SetDefaultEntpoint reg1 o serviceID host port).2.1.toInMemEndpointManager.GetEndpoint
            k := by
  have h : (SetDefaultEntpoint reg2 (SetDefaultEntpoint reg1 o serviceID host port).2.1
      serviceID host port).2.1.toInMemEndpointManager =
      (SetDefaultEntpoint reg1 o serviceID host port).2.1.toInMemEndpointManager := by
    rw [SetDefaultEntpoint_defaults, SetDefaultEntpoint_defaults, InMem_set_set]
  exact ⟨h, fun k => by rw [h]⟩

/-! ## C7: empty components -/

/-- C7, as stated, fails: a token with exactly one `:` is kept even when its
host or its port is empty after trimming.  `:8080` gives an endpoint with an
empty host, `h:` one with an empty port, and ` : ` one with both empty. -/
theorem C7_empty_components_kept :
    (parseServiceFromString (NewEtcdEndpointManager []) "svc" ":8080").1 = [⟨"", "8080"⟩] ∧
      (parseServiceFromString (NewEtcdEndpointManager []) "svc" "h:").1 = [⟨"h", ""⟩] ∧
      (parseServiceFromString (NewEtcdEndpointManager []) "svc" " : ").1 = [⟨"", ""⟩] ∧
      ¬ (∀ ep ∈ (parseServiceFromString (NewEtcdEndpointManager []) "svc" ":8080").1,
        ep.Host ≠ "" ∧ ep.Port ≠ "") := by
  decide

/-- C7 (amended): empty components are not rejected.  For every string `val`,
every comma-separated token of `val` with exactly one `:` contributes its
endpoint to the list returned by `parseServiceFromString(id, val)`, host and
port trimmed of surrounding spaces, also when the host or the port is empty
after trimming; the tokens `:8080`, `h:` and ` : ` give the endpoints with host
and port `("", "8080")`, `("h", "")` and `("", "")`. -/
theorem C7_empty_components (o : EtcdEndpointManager) (serviceID val token : String)
    (htoken : token ∈ Split val ',') (hcolon : token.data.count ':' = 1) :
    (⟨Trim (String.mk (token.data.takeWhile (fun c => c != ':'))) ' ',
        Trim (String.mk (token.data.dropWhile (fun c => c != ':')).tail) ' '⟩ : Endpoint) ∈
        (parseServiceFromString o serviceID val).1 ∧
      (parseServiceFromString o serviceID ":8080").1 = [⟨"", "8080"⟩] ∧
      (parseServiceFromString o serviceID "h:").1 = [⟨"h", ""⟩] ∧
      (parseServiceFromString o serviceID " : ").1 = [⟨"", ""⟩] := by
  refine ⟨?_, ?_, ?_, ?_⟩
  · show _ ∈ parseEndpoints val
    rw [parseEndpoints_eq_spec, specParse, List.mem_filterMap]
    exact ⟨token, htoken, by simp [specEndpoint, hcolon]⟩
  · show parseEndpoints ":8080" = _
    decide
  · show parseEndpoints "h:" = _
    decide
  · show parseEndpoints " : " = _
    decide

/-- C7 (amended) at a concrete input: the second token of `a:1, :2` has an
empty host and is kept. -/
theorem C7_empty_components_witness :
    (⟨"", "2"⟩ : Endpoint) ∈ (parseServiceFromString (NewEtcdEndpointManager []) "svc" "a:1, :2").1 :=
  (C7_empty_components (NewEtcdEndpointManager []) "svc" "a:1, :2" " :2" (by decide)
    (by decide)).1

/-! ## C10: the fetch path and the cache -/

/-- A fetch with no pair for `serviceID` leaves the state as it is. -/
theorem fetchLoop_no_key (serviceID : String) :
    ∀ (Kvs : List KeyValue) (o : EtcdEndpointManager),
      (∀ kv ∈ Kvs, kv.Key ≠ serviceID) → fetchLoop serviceID o Kvs = (none, o) := by
  intro Kvs
  induction Kvs with
  | nil => intro o _; rfl
  | cons kv Kvs ih =>
    intro o h
    unfold fetchLoop
    rw [if_neg (h kv (List.mem_cons_self _ _))]
    exact ih o (fun kv2 h2 => h kv2 (List.mem_cons_of_mem _ h2))

/-- A fetch with a pair for `serviceID` leaves in the cache the parse of the
value of one of these pairs. -/
theorem fetchLoop_stores (serviceID : String) :
    ∀ (Kvs : List KeyValue) (o : EtcdEndpointManager),
      (∃ kv ∈ Kvs, kv.Key = serviceID) →
      ∃ kv ∈ Kvs, kv.Key = serviceID ∧
        (fetchLoop serviceID o Kvs).2.EndpointsMap serviceID =
          some (parseEndpoints kv.Value) := by
  intro Kvs
  induction Kvs with
  | nil => intro o h; simp at h
  | cons kv Kvs ih =>
    intro o h
    by_cases hkey : kv.Key = serviceID
    · unfold fetchLoop
      rw [if_pos hkey]
      split
      · rename_i heq
        rw [Prod.mk.injEq] at heq
        refine ⟨kv, List.mem_cons_self _ _, hkey, ?_⟩
        rw [← heq.2, parseServiceFromString_state]
        exact Store_same _ _ _
      · rename_i o1 heq
        rw [Prod.mk.injEq] at heq
        by_cases hrest : ∃ kv2 ∈ Kvs, kv2.Key = serviceID
        · obtain ⟨kv2, hmem, hk2, hstore⟩ := ih o1 hrest
          exact ⟨kv2, List.mem_cons_of_mem _ hmem, hk2, hstore⟩
        · have hno : ∀ kv2 ∈ Kvs, kv2.Key ≠ serviceID :=
            fun kv2 hmem hk2 => hrest ⟨kv2, hmem, hk2⟩
          refine ⟨kv, List.mem_cons_self _ _, hkey, ?_⟩
          rw [fetchLoop_no_key serviceID Kvs o1 hno, ← heq.2, parseServiceFromString_state]
          exact Store_same _ _ _
    · have hrest : ∃ kv2 ∈ Kvs, kv2.Key = serviceID := by
        obtain ⟨kv2, hmem, hk2⟩ := h
        rcases List.mem_cons.mp hmem with e | e
        · exact absurd (e ▸ hk2) hkey
        · exact ⟨kv2, e, hk2⟩
      unfold fetchLoop
      rw [if_neg hkey]
      obtain ⟨kv2, hmem, hk2, hstore⟩ := ih o hrest
      exact ⟨kv2, List.mem_cons_of_mem _ hmem, hk2, hstore⟩

/-- C10, as stated, fails: `parseServiceFromString` stores the list it parses,
and the fetch path calls it.  On a connected manager with no cache entry for
`svc`, a lookup whose fetch returns the value `r:1` leaves the cache entry
`[r:1]` for `svc`. -/
theorem C10_fetch_writes_cache :
    connected.client = some ⟨["etcd:2379"]⟩ ∧ connected.EndpointsMap "svc" = none ∧
      liveRegistry.Get "svc" = some [⟨"svc", "r:1"⟩] ∧
      (GetEndpoint liveRegistry connected "svc").2.1.EndpointsMap "svc" =
        some [⟨"r", "1"⟩] ∧
      (GetEndpoint liveRegistry connected "svc").2.1.EndpointsMap "svc" ≠ none := by
  decide

/-- C10 (amended): the fetch path writes the cache.  For every
`GetEndpoint(id)` call that starts with no cache entry for `id` on a connected
manager and whose one-shot registry fetch succeeds with a value for `id`, the
cache has an entry for `id` when the call returns: the parse of the value of a
fetched pair with key `id`, stored by `parseServiceFromString`; when the fetch
returns the single pair `(id, v)`, the entry is the parse of `v`. -/
theorem C10_fetch_populates_cache (o : EtcdEndpointManager) (reg : Registry)
    (serviceID : String) (Kvs : List KeyValue) (hclient : o.client.isSome = true)
    (hcache : o.EndpointsMap serviceID = none) (hfetch : reg.Get serviceID = some Kvs)
    (hvalue : ∃ kv ∈ Kvs, kv.Key = serviceID) :
    (∃ kv ∈ Kvs, kv.Key = serviceID ∧
        (GetEndpoint reg o serviceID).2.1.EndpointsMap serviceID =
          some (parseServiceFromString o serviceID kv.Value).1) ∧
      (∀ v : String, Kvs = [⟨serviceID, v⟩] →
        (GetEndpoint reg o serviceID).2.1.EndpointsMap serviceID =
          some (parseServiceFromString o serviceID v).1) := by
  have hstart : lazyStart reg o = (o, []) := by
    unfold lazyStart
    cases hc : o.client with
    | none => rw [hc] at hclient; simp at hclient
    | some cl => simp
  have hstate : (GetEndpoint reg o serviceID).2.1 =
      (fetchLoop serviceID (rotate o serviceID).2 Kvs).2 := by
    have hcl : (rotate o serviceID).2.client.isSome = true := by
      rw [rotate_state]; exact hclient
    unfold GetEndpoint
    simp only [hstart]
    unfold resolve
    simp only [SyncMap.Load, hcache, hcl, if_true, hfetch]
    split
    · rename_i heq; rw [heq]
    · rename_i heq; rw [heq]
  obtain ⟨kv, hmem, hkey, hstore⟩ := fetchLoop_stores serviceID Kvs (rotate o serviceID).2 hvalue
  refine ⟨⟨kv, hmem, hkey, by rw [hstate, hstore]; rfl⟩, ?_⟩
  intro v hv
  subst hv
  simp only [List.mem_singleton] at hmem
  subst hmem
  rw [hstate, hstore]
  rfl

/-- C10 (amended) at a concrete input: the connected manager and the registry
value `r:1`; the next lookup is then a cache hit. -/
theorem C10_fetch_populates_cache_witness :
    (GetEndpoint liveRegistry connected "svc").2.1.EndpointsMap "svc" =
      some (parseServiceFromString connected "svc" "r:1").1 :=
  (C10_fetch_populates_cache connected liveRegistry "svc" [⟨"svc", "r:1"⟩] (by decide)
    (by decide) (by decide) (by decide)).2 "r:1" rfl

/-! ## C11: the rotation counter advances on every lookup -/

/-- The counter of `serviceID` after a lookup is the wrapped successor of the
value read, and no other counter is written. -/
theorem rotation_GetEndpoint (reg : Registry) (o : EtcdEndpointManager) (serviceID : String) :
    (GetEndpoint reg o serviceID).2.1.EndpointRotating serviceID =
        some (wrapInt (rotation o serviceID + 1)) ∧
      ∀ k : String, k ≠ serviceID →
        (GetEndpoint reg o serviceID).2.1.EndpointRotating k = o.EndpointRotating k := by
  rw [GetEndpoint_frame]
  exact ⟨Store_same _ _ _, fun k hk => Store_other _ _ _ _ hk⟩

/-- C11, as stated, fails at the largest `int`: a lookup on a counter that
holds 9223372036854775807 leaves the smallest `int` in it, not the value
increased by one. -/
theorem C11_cursor_wraps_at_max :
    rotation overflowState "svc" = 9223372036854775807 ∧
      rotation (GetEndpoint noRegistry overflowState "svc").2.1 "svc" =
        -9223372036854775808 ∧
      rotation (GetEndpoint noRegistry overflowState "svc").2.1 "svc" ≠
        rotation overflowState "svc" + 1 := by
  decide

/-- C11 (amended): unconditional cursor advance.  Every `GetEndpoint(id)` call,
whatever its outcome and whatever the registry answers, increases the rotation
counter of `id` by exactly one when the counter is an `int` below the largest
`int`; a missing counter counts as 0, so it is 1 after the first lookup; the
rotation counter of every other service id is unchanged. -/
theorem C11_cursor_advance (reg : Registry) (o : EtcdEndpointManager) (serviceID : String)
    (hmin : minInt ≤ rotation o serviceID) (hmax : rotation o serviceID < maxInt) :
    rotation (GetEndpoint reg o serviceID).2.1 serviceID = rotation o serviceID + 1 ∧
      (o.EndpointRotating serviceID = none →
        (GetEndpoint reg o serviceID).2.1.EndpointRotating serviceID = some 1) ∧
      ∀ k : String, k ≠ serviceID →
        (GetEndpoint reg o serviceID).2.1.EndpointRotating k = o.EndpointRotating k := by
  obtain ⟨hsame, hother⟩ := rotation_GetEndpoint reg o serviceID
  have hwrap : wrapInt (rotation o serviceID + 1) = rotation o serviceID + 1 := by
    simp only [minInt, maxInt] at hmin hmax
    exact wrapInt_of_range (by omega) (by omega)
  refine ⟨?_, ?_, hother⟩
  · simp only [rotation, SyncMap.LoadOrStore] at hwrap ⊢
    rw [hsame]
    simp only [rotation, SyncMap.LoadOrStore]
    exact hwrap
  · intro hnone
    rw [hsame]
    simp only [rotation, SyncMap.LoadOrStore, hnone]
    rfl

/-- C11 (amended) at a concrete input: the first lookup of a service with a
cached list and no counter leaves the counter at 1. -/
theorem C11_cursor_advance_witness :
    rotation (GetEndpoint noRegistry freshCounter "svc").2.1 "svc" =
      rotation freshCounter "svc" + 1 :=
  (C11_cursor_advance noRegistry freshCounter "svc" (by decide) (by decide)).1

/-! ## C14: events that are not PUT -/

/-- C14: DELETE events are ignored.  For every resolver state and every watch
event whose type is not PUT, handling the event in `MonitorChan` leaves the
whole state unchanged, the cache, the rotation counters and the default table
included; the same holds for a channel that carries only such events, so a
lookup after them is the lookup before them. -/
theorem C14_non_put_ignored (o : EtcdEndpointManager) (ev : Event)
    (wchan : List WatchResponse) (reg : Registry) (serviceID : String)
    (hev : ev.Type_ ≠ EventType.PUT)
    (hchan : ∀ wresp ∈ wchan, ∀ e ∈ wresp.Events, e.Type_ ≠ EventType.PUT) :
    MonitorChan o [⟨[ev]⟩] = o ∧ MonitorChan o wchan = o ∧
      GetEndpoint reg (MonitorChan o [⟨[ev]⟩]) serviceID = GetEndpoint reg o serviceID := by
  have hone : ∀ (o2 : EtcdEndpointManager) (e : Event), e.Type_ ≠ EventType.PUT →
      handleEvent o2 e = o2 := by
    intro o2 e he
    simp only [handleEvent, he, if_false]
  have hevents : ∀ (evs : List Event) (o2 : EtcdEndpointManager),
      (∀ e ∈ evs, e.Type_ ≠ EventType.PUT) → evs.foldl handleEvent o2 = o2 := by
    intro evs
    induction evs with
    | nil => intro o2 _; rfl
    | cons e rest ih =>
      intro o2 h
      rw [List.foldl_cons, hone o2 e (h e (List.mem_cons_self _ _))]
      exact ih o2 (fun e2 h2 => h e2 (List.mem_cons_of_mem _ h2))
  have hall : ∀ (ws : List WatchResponse) (o2 : EtcdEndpointManager),
      (∀ wresp ∈ ws, ∀ e ∈ wresp.Events, e.Type_ ≠ EventType.PUT) →
      MonitorChan o2 ws = o2 := by
    intro ws
    induction ws with
    | nil => intro o2 _; rfl
    | cons w rest ih =>
      intro o2 h
      simp only [MonitorChan, List.foldl_cons]
      rw [hevents w.Events o2 (h w (List.mem_cons_self _ _))]
      exact ih o2 (fun w2 h2 => h w2 (List.mem_cons_of_mem _ h2))
  have h1 : MonitorChan o [⟨[ev]⟩] = o := by
    rw [MonitorChan_single]
    exact hone o ev hev
  exact ⟨h1, hall wchan o hchan, by rw [h1]⟩

/-- C14 at a concrete input: after a DELETE event for `svc` the cached list of
`svc` is still the one the lookup rotates over. -/
theorem C14_non_put_ignored_witness :
    (MonitorChan freshCounter [⟨[⟨EventType.DELETE, ⟨"svc", ""⟩⟩]⟩]).EndpointsMap "svc" =
        some [⟨"a", "1"⟩, ⟨"b", "2"⟩] ∧
      (GetEndpoint noRegistry (MonitorChan freshCounter [⟨[⟨EventType.DELETE, ⟨"svc", ""⟩⟩]⟩])
        "svc").1 = .returned ("a", "1", none) := by
  have h := C14_non_put_ignored freshCounter ⟨EventType.DELETE, ⟨"svc", ""⟩⟩
    [⟨[⟨EventType.DELETE, ⟨"svc", ""⟩⟩, ⟨EventType.DELETE, ⟨"other", "x:1"⟩⟩]⟩]
    noRegistry "svc" (by decide) (by decide)
  rw [h.1]
  decide

/-! ## C15: index safety on the hit path -/

/-- A counter whose increments stayed in range holds the number of lookups. -/
theorem counterAfter_eq : ∀ k : Nat, staysInRange k → counterAfter k = (k : Int) := by
  intro k
  induction k with
  | zero => intro _; rfl
  | succ k ih =>
    intro h
    have hk : staysInRange k := fun j hj => h j (Nat.lt_succ_of_lt hj)
    have hstep := h k (Nat.lt_succ_self k)
    rw [ih hk] at hstep
    simp only [maxInt] at hstep
    simp only [counterAfter, ih hk]
    rw [wrapInt_of_range (by omega) (by omega)]
    omega

/-- The counter of a service after consecutive lookups follows `counterAfter`. -/
theorem rotation_GetEndpoints (serviceID : String) :
    ∀ (regs : List Registry) (o : EtcdEndpointManager) (j : Nat),
      rotation o serviceID = counterAfter j →
      rotation (GetEndpoints serviceID o regs).2 serviceID = counterAfter (j + regs.length) := by
  intro regs
  induction regs with
  | nil => intro o j h; exact h
  | cons reg rest ih =>
    intro o j h
    simp only [GetEndpoints, List.length_cons]
    rw [ih (GetEndpoint reg o serviceID).2.1 (j + 1), Nat.add_assoc, Nat.add_comm 1]
    have hs := (rotation_GetEndpoint reg o serviceID).1
    simp only [rotation, SyncMap.LoadOrStore, hs, counterAfter]
    rw [← h]
    rfl

/-- C15: index safety on the hit path.  For every cache list of length N > 0
and every rotation-counter value reached from the initial 0 by `k` successive
increments that stay within the range of `int`, the counter is non-negative
and the selected index, counter mod N, satisfies 0 <= index < N, so the list
is indexed within bounds and `GetEndpoint` does not panic; these counter values
are the ones the code produces by consecutive lookups from a missing counter.
A negative counter would not do: -1 mod 2 is -1. -/
theorem C15_index_in_range (arr : List Endpoint) (k : Nat) (hpos : 0 < arr.length)
    (hrange : staysInRange k) :
    0 ≤ counterAfter k ∧
      0 ≤ Int.tmod (counterAfter k) arr.length ∧
      Int.tmod (counterAfter k) arr.length < arr.length ∧
      (index arr (Int.tmod (counterAfter k) arr.length)).isSome = true ∧
      (∀ (reg : Registry) (o : EtcdEndpointManager) (serviceID : String),
        o.EndpointsMap serviceID = some arr → rotation o serviceID = counterAfter k →
        (GetEndpoint reg o serviceID).1 ≠ .panicked) ∧
      (∀ (o : EtcdEndpointManager) (serviceID : String) (regs : List Registry),
        o.EndpointRotating serviceID = none → regs.length = k →
        rotation (GetEndpoints serviceID o regs).2 serviceID = counterAfter k) ∧
      index [⟨"a", "1"⟩, ⟨"b", "2"⟩] (Int.tmod (-1) 2) = none := by
  have hk := counterAfter_eq k hrange
  have hidx : Int.tmod (k : Int) (arr.length : Int) = ((k % arr.length : Nat) : Int) := by
    rw [Int.tmod_eq_emod (by omega) (by omega)]
    omega
  have hlt : k % arr.length < arr.length := Nat.mod_lt _ hpos
  refine ⟨by rw [hk]; omega, by rw [hk, hidx]; omega, by rw [hk, hidx]; omega, ?_, ?_, ?_, ?_⟩
  · rw [hk, index_tmod arr k hpos]
    rfl
  · intro reg o serviceID harr hc
    rw [hk] at hc
    rw [(GetEndpoint_hit reg o serviceID arr k hpos harr hc).1]
    exact fun h => by cases h
  · intro o serviceID regs hnone hlen
    have h0 : rotation o serviceID = counterAfter 0 := by
      simp only [rotation, SyncMap.LoadOrStore, hnone, counterAfter]
    rw [rotation_GetEndpoints serviceID regs o 0 h0, hlen, Nat.zero_add]
  · decide

/-- C15 at a concrete input: after three lookups the counter is 3 and selects
index 1 of a list of two. -/
theorem C15_index_in_range_witness :
    Int.tmod (counterAfter 3) 2 = 1 ∧
      index [⟨"a", "1"⟩, ⟨"b", "2"⟩] (Int.tmod (counterAfter 3) 2) = some ⟨"b", "2"⟩ ∧
      (index [⟨"a", "1"⟩, ⟨"b", "2"⟩] (Int.tmod (counterAfter 3) 2)).isSome = true :=
  ⟨by decide, by decide,
    (C15_index_in_range [⟨"a", "1"⟩, ⟨"b", "2"⟩] 3 (by decide)
      (by unfold staysInRange; decide)).2.2.2.1⟩

/-! ## C12: cache entry present but empty -/

/-- With a client the lazy connect does nothing. -/
theorem lazyStart_connected (reg : Registry) (o : EtcdEndpointManager)
    (hclient : o.client.isSome = true) : lazyStart reg o = (o, []) := by
  unfold lazyStart
  cases hc : o.client with
  | none => rw [hc] at hclient; simp at hclient
  | some cl => simp

/-- `Start` reads nothing from the registry: it only opens watches. -/
theorem Start_no_Get (reg : Registry) (o : EtcdEndpointManager) (key : String) :
    Effect.Get key ∉ (Start reg o).2.2 := by
  unfold Start
  split
  · simp
  · split
    · simp
    · split
      · simp
      · simp only [List.mem_append, List.mem_map, not_or]
        constructor
        · split <;> simp
        · simp

/-- A lookup on a cache entry that is present and empty is the fallback
lookup; after the lazy connect it sends nothing. -/
theorem resolve_empty (reg : Registry) (o : EtcdEndpointManager) (serviceID : String)
    (hempty : o.EndpointsMap serviceID = some []) :
    (resolve reg o serviceID).1 = o.toInMemEndpointManager.GetEndpoint serviceID ∧
      (resolve reg o serviceID).2.2 = [] := by
  unfold resolve
  simp only [SyncMap.Load, hempty, rotate_state, List.length_nil, gt_iff_lt, Nat.lt_irrefl,
    if_false]
  constructor <;> first | rfl | trivial

/-- The cache entry of a key after a PUT event for it. -/
theorem MonitorChan_put (o : EtcdEndpointManager) (k v : String) :
    (MonitorChan o [⟨[⟨EventType.PUT, ⟨k, v⟩⟩]⟩]).EndpointsMap k = some (parseEndpoints v) := by
  rw [MonitorChan_single]
  have hs : handleEvent o ⟨EventType.PUT, ⟨k, v⟩⟩ =
      { o with EndpointsMap := o.EndpointsMap.Store k (parseEndpoints v) } := rfl
  rw [hs]
  exact Store_same _ _ _

/-- C12, as stated, fails on a manager that is not connected: the lookup
starts with the lazy connect, and when that succeeds `Start` opens a watch for
every service that has a default.  Here a default was set for `svc` and a PUT
with the value `bad` was handled before any connection, so the cache entry of
`svc` is present and empty; the lookup returns the default, and a watch for
`svc` is started. -/
theorem C12_lazy_connect_starts_watch :
    unconnectedEmpty.client = none ∧ unconnectedEmpty.EndpointsMap "svc" = some [] ∧
      (GetEndpoint liveRegistry unconnectedEmpty "svc").1 = .returned ("d", "1", none) ∧
      (GetEndpoint liveRegistry unconnectedEmpty "svc").2.2 = [Effect.Watch "svc" false] ∧
      (GetEndpoint liveRegistry unconnectedEmpty "svc").2.2 ≠ [] := by
  decide

/-- C12 (amended): cache present but empty.  For every service id whose cache
entry is present with length 0 (as after a PUT whose value has no well-formed
token, such as `bad` or the empty string), `GetEndpoint(id)` returns exactly
the result of the fallback lookup for `id` and performs no registry fetch,
whether or not the manager is connected; the only requests it sends are those
of its lazy connect, so it starts no watch when the manager is connected
already or the connect does not succeed (empty bootstrap list or connection
error). -/
theorem C12_empty_entry (reg : Registry) (o : EtcdEndpointManager) (serviceID : String)
    (hempty : o.EndpointsMap serviceID = some []) :
    (GetEndpoint reg o serviceID).1 = o.toInMemEndpointManager.GetEndpoint serviceID ∧
      (∀ key : String, Effect.Get key ∉ (GetEndpoint reg o serviceID).2.2) ∧
      (GetEndpoint reg o serviceID).2.2 = (lazyStart reg o).2 ∧
      (o.client.isSome = true ∨ o.EtcdEndpoints = [] ∨ reg.New o.EtcdEndpoints = none →
        (GetEndpoint reg o serviceID).2.2 = []) ∧
      (∀ (o2 : EtcdEndpointManager) (k : String),
        (MonitorChan o2 [⟨[⟨EventType.PUT, ⟨k, "bad"⟩⟩]⟩]).EndpointsMap k = some [] ∧
        (MonitorChan o2 [⟨[⟨EventType.PUT, ⟨k, ""⟩⟩]⟩]).EndpointsMap k = some []) := by
  have hres := resolve_empty reg (lazyStart reg o).1 serviceID
    (by rw [lazyStart_EndpointsMap]; exact hempty)
  have hfx : (GetEndpoint reg o serviceID).2.2 = (lazyStart reg o).2 := by
    unfold GetEndpoint
    simp only [hres.2, List.append_nil]
  refine ⟨?_, ?_, hfx, ?_, ?_⟩
  · unfold GetEndpoint
    simp only [hres.1, lazyStart_defaults]
  · intro key
    rw [hfx]
    unfold lazyStart
    split
    · exact Start_no_Get reg o key
    · simp
  · intro h
    rw [hfx]
    rcases h with h | h | h
    · rw [lazyStart_connected reg o h]
    · cases hc : o.client with
      | none => rw [lazyStart_fails reg o hc (Or.inl h)]
      | some cl => rw [lazyStart_connected reg o (by rw [hc]; rfl)]
    · cases hc : o.client with
      | none => rw [lazyStart_fails reg o hc (Or.inr h)]
      | some cl => rw [lazyStart_connected reg o (by rw [hc]; rfl)]
  · intro o2 k
    have hbad : parseEndpoints "bad" = [] := by decide
    have hnil : parseEndpoints "" = [] := by decide
    constructor
    · rw [MonitorChan_put o2 k "bad", hbad]
    · rw [MonitorChan_put o2 k "", hnil]

/-- C12 (amended) at a concrete input: a connected manager with an empty entry
and a default for `svc`. -/
theorem C12_empty_entry_witness :
    (GetEndpoint liveRegistry connectedEmpty "svc").1 = .returned ("d", "1", none) ∧
      (GetEndpoint liveRegistry connectedEmpty "svc").2.2 = [] := by
  have h := C12_empty_entry liveRegistry connectedEmpty "svc" (by decide)
  exact ⟨h.1.trans (by decide), h.2.2.2.1 (Or.inl (by decide))⟩

/-! ## C13: cache miss with a registry value -/

/-- The fetch loop ends at the first pair for `serviceID` whose value parses
to a non-empty list, with the first endpoint of that list. -/
theorem fetchLoop_first (serviceID : String) (kv : KeyValue) (post : List KeyValue)
    (ep : Endpoint) (rest : List Endpoint) (hkey : kv.Key = serviceID)
    (hparse : parseEndpoints kv.Value = ep :: rest) :
    ∀ (pre : List KeyValue) (o : EtcdEndpointManager),
      (∀ p ∈ pre, p.Key = serviceID → parseEndpoints p.Value = []) →
      (fetchLoop serviceID o (pre ++ kv :: post)).1 = some ep := by
  intro pre
  induction pre with
  | nil =>
    intro o _
    simp only [List.nil_append, fetchLoop, hkey, if_true, parseServiceFromString, hparse]
  | cons p pre ih =>
    intro o h
    have hrest : ∀ q ∈ pre, q.Key = serviceID → parseEndpoints q.Value = [] :=
      fun q hq => h q (List.mem_cons_of_mem _ hq)
    simp only [List.cons_append, fetchLoop]
    split
    · rename_i hp
      simp only [parseServiceFromString, h p (List.mem_cons_self _ _) hp]
      exact ih _ hrest
    · exact ih o hrest

/-- A cache miss on a connected manager whose fetch loop ends with an endpoint
returns that endpoint with a nil error. -/
theorem GetEndpoint_fetched (reg : Registry) (o : EtcdEndpointManager) (serviceID : String)
    (Kvs : List KeyValue) (ep : Endpoint) (hclient : o.client.isSome = true)
    (hcache : o.EndpointsMap serviceID = none) (hfetch : reg.Get serviceID = some Kvs)
    (hloop : ∀ o2 : EtcdEndpointManager, (fetchLoop serviceID o2 Kvs).1 = some ep) :
    (GetEndpoint reg o serviceID).1 = .returned (ep.Host, ep.Port, none) := by
  have hcl : (rotate o serviceID).2.client.isSome = true := by
    rw [rotate_state]; exact hclient
  have hl := hloop (rotate o serviceID).2
  unfold GetEndpoint
  simp only [lazyStart_connected reg o hclient]
  unfold resolve
  simp only [SyncMap.Load, hcache, hcl, if_true, hfetch]
  split
  · rename_i ep2 o1 heq
    rw [heq] at hl
    simp only [Option.some.injEq] at hl
    rw [hl]
  · rename_i o1 heq
    rw [heq] at hl
    simp at hl

/-- C13: cache miss with a registry value.  For every service id with no cache
entry on a connected manager, whatever the rotation counter and the defaults:
if the one-shot fetch succeeds and returns a pair whose key is `id` and whose
value parses to a non-empty list, `GetEndpoint(id)` returns the first element
of that parsed list with a nil error (the pair being the first such pair of
the response, the only one when the keys of the response are distinct, as
they are in a registry response); if the fetch fails, returns no pair with key
`id`, or only values that parse to the empty list, it returns the fallback
lookup result. -/
theorem C13_cache_miss (reg : Registry) (o : EtcdEndpointManager) (serviceID : String)
    (hclient : o.client.isSome = true) (hcache : o.EndpointsMap serviceID = none) :
    (∀ (pre post : List KeyValue) (kv : KeyValue) (ep : Endpoint) (rest : List Endpoint),
        reg.Get serviceID = some (pre ++ kv :: post) →
        (∀ p ∈ pre, p.Key = serviceID → (parseServiceFromString o serviceID p.Value).1 = []) →
        kv.Key = serviceID → (parseServiceFromString o serviceID kv.Value).1 = ep :: rest →
        (GetEndpoint reg o serviceID).1 = .returned (ep.Host, ep.Port, none)) ∧
      (∀ (Kvs : List KeyValue) (kv : KeyValue) (ep : Endpoint) (rest : List Endpoint),
        reg.Get serviceID = some Kvs → (Kvs.map KeyValue.Key).Nodup → kv ∈ Kvs →
        kv.Key = serviceID → (parseServiceFromString o serviceID kv.Value).1 = ep :: rest →
        (GetEndpoint reg o serviceID).1 = .returned (ep.Host, ep.Port, none)) ∧
      (reg.Get serviceID = none ∨
        (∃ Kvs, reg.Get serviceID = some Kvs ∧
          ∀ kv ∈ Kvs, kv.Key = serviceID →
            (parseServiceFromString o serviceID kv.Value).1 = []) →
        (GetEndpoint reg o serviceID).1 =
          o.toInMemEndpointManager.GetEndpoint serviceID) := by
  have hfirst : ∀ (pre post : List KeyValue) (kv : KeyValue) (ep : Endpoint)
      (rest : List Endpoint), reg.Get serviceID = some (pre ++ kv :: post) →
      (∀ p ∈ pre, p.Key = serviceID → parseEndpoints p.Value = []) →
      kv.Key = serviceID → parseEndpoints kv.Value = ep :: rest →
      (GetEndpoint reg o serviceID).1 = .returned (ep.Host, ep.Port, none) := by
    intro pre post kv ep rest hfetch hpre hkey hparse
    exact GetEndpoint_fetched reg o serviceID _ ep hclient hcache hfetch
      (fun o2 => fetchLoop_first serviceID kv post ep rest hkey hparse pre o2 hpre)
  refine ⟨hfirst, ?_, ?_⟩
  · intro Kvs kv ep rest hfetch hnodup hmem hkey hparse
    obtain ⟨pre, post, hsplit⟩ := List.append_of_mem hmem
    subst hsplit
    refine hfirst pre post kv ep rest hfetch ?_ hkey hparse
    intro p hp hpkey
    exfalso
    rw [List.map_append, List.map_cons, List.nodup_append] at hnodup
    exact hnodup.2.2 (List.mem_map_of_mem KeyValue.Key hp)
      (by rw [hpkey, ← hkey]; exact List.mem_cons_self _ _)
  · intro h
    unfold GetEndpoint
    simp only [lazyStart_connected reg o hclient]
    exact resolve_fallback reg o serviceID hcache (Or.inr h)

/-- C13 at a concrete input: a connected manager with a default for `svc` and
a negative counter; the response holds a pair for another key and the pair
`svc = r:1, s:2`, and the lookup returns `r:1`. -/
theorem C13_cache_miss_witness :
    (GetEndpoint twoValueRegistry connectedDefault "svc").1 = .returned ("r", "1", none) :=
  (C13_cache_miss twoValueRegistry connectedDefault "svc" (by decide) (by decide)).2.1
    [⟨"other", "x:9"⟩, ⟨"svc", "r:1, s:2"⟩] ⟨"svc", "r:1, s:2"⟩ ⟨"r", "1"⟩ [⟨"s", "2"⟩]
    rfl (by decide) (by decide) rfl (by decide)

/-! ## C16: parse/format round trip -/

theorem head?_trimLeft (cut : Char) (cs : List Char) :
    (trimLeft cut cs).head? ≠ some cut := by
  have h := List.head?_dropWhile_not (fun c => c == cut) cs
  unfold trimLeft
  intro hc
  rw [hc] at h
  simp at h

theorem trimLeft_of_head? (cut : Char) (cs : List Char) (h : cs.head? ≠ some cut) :
    trimLeft cut cs = cs := by
  cases cs with
  | nil => rfl
  | cons c rest =>
    have hc : c ≠ cut := fun e => h (by rw [e]; rfl)
    simp [trimLeft, List.dropWhile_cons, hc]

/-- A trimmed sequence neither starts nor ends with the cut character. -/
theorem trimChars_ends (cut : Char) (cs : List Char) :
    (trimChars cut cs).head? ≠ some cut ∧ (trimChars cut cs).getLast? ≠ some cut := by
  unfold trimChars
  constructor
  · rw [List.head?_reverse]
    intro hlast
    have hsuf : trimLeft cut (trimLeft cut cs).reverse <:+ (trimLeft cut cs).reverse :=
      List.dropWhile_suffix _
    obtain ⟨t, ht⟩ := hsuf
    have h2 : ((trimLeft cut cs).reverse).getLast? = some cut := by
      rw [← ht, List.getLast?_append, hlast]
      rfl
    rw [List.getLast?_reverse] at h2
    exact head?_trimLeft cut cs h2
  · rw [List.getLast?_reverse]
    exact head?_trimLeft cut _

/-- Trimming changes nothing in a sequence that neither starts nor ends with
the cut character. -/
theorem trimChars_of_ends (cut : Char) (cs : List Char) (hhead : cs.head? ≠ some cut)
    (hlast : cs.getLast? ≠ some cut) : trimChars cut cs = cs := by
  unfold trimChars
  rw [trimLeft_of_head? cut cs hhead,
    trimLeft_of_head? cut cs.reverse (by rw [List.head?_reverse]; exact hlast),
    List.reverse_reverse]

theorem mem_trimChars (cut c : Char) (cs : List Char) (h : c ∈ trimChars cut cs) : c ∈ cs := by
  unfold trimChars trimLeft at h
  rw [List.mem_reverse] at h
  have h2 := (List.dropWhile_sublist _).subset h
  rw [List.mem_reverse] at h2
  exact (List.dropWhile_sublist _).subset h2

/-- No piece of a split holds the separator, and every character of a piece
is a character of the sequence that was split. -/
theorem splitChars_pieces (sep : Char) :
    ∀ (cs piece : List Char), piece ∈ splitChars sep cs →
      sep ∉ piece ∧ ∀ c ∈ piece, c ∈ cs := by
  intro cs
  induction cs with
  | nil =>
    intro piece h
    simp only [splitChars, List.mem_singleton] at h
    subst h
    simp
  | cons c cs ih =>
    intro piece h
    by_cases hc : c = sep
    · simp only [splitChars, hc, if_true, List.mem_cons] at h
      rcases h with h | h
      · subst h; simp
      · obtain ⟨h1, h2⟩ := ih piece h
        exact ⟨h1, fun x hx => List.mem_cons_of_mem _ (h2 x hx)⟩
    · simp only [splitChars, hc, if_false] at h
      cases hs : splitChars sep cs with
      | nil =>
        rw [hs] at h
        simp only [List.mem_singleton] at h
        subst h
        simp [Ne.symm hc]
      | cons p rest =>
        rw [hs] at h
        simp only [List.mem_cons] at h
        rcases h with h | h
        · subst h
          obtain ⟨h1, h2⟩ := ih p (by rw [hs]; exact List.mem_cons_self _ _)
          refine ⟨?_, ?_⟩
          · simp only [List.mem_cons, not_or]
            exact ⟨Ne.symm hc, h1⟩
          · intro x hx
            rcases List.mem_cons.mp hx with e | e
            · rw [e]; exact List.mem_cons_self _ _
            · exact List.mem_cons_of_mem _ (h2 x e)
        · obtain ⟨h1, h2⟩ := ih piece (by rw [hs]; exact List.mem_cons_of_mem _ h)
          exact ⟨h1, fun x hx => List.mem_cons_of_mem _ (h2 x hx)⟩

/-- Splitting what starts with a separator-free piece followed by the
separator. -/
theorem splitChars_append_sep (sep : Char) (rest : List Char) :
    ∀ a : List Char, sep ∉ a →
      splitChars sep (a ++ sep :: rest) = a :: splitChars sep rest := by
  intro a
  induction a with
  | nil => intro _; simp [splitChars]
  | cons c a ih =>
    intro h
    simp only [List.mem_cons, not_or] at h
    have hc : c ≠ sep := fun e => h.1 e.symm
    have ha : splitChars sep (a.append (sep :: rest)) = a :: splitChars sep rest := ih h.2
    simp only [List.cons_append, splitChars, hc, if_false]
    rw [ha]
/-- What the loop body of the parser does with a token: nothing, or it appends
the endpoint of the two pieces of the token. -/
theorem appendHostPort_cases (Eps : List Endpoint) (token : String) :
    appendHostPort Eps token = Eps ∨
      ∃ h p : List Char, splitChars ':' token.data = [h, p] ∧
        appendHostPort Eps token = Eps ++ [⟨Trim (String.mk h) ' ', Trim (String.mk p) ' '⟩] := by
  unfold appendHostPort Split
  cases hs : splitChars ':' token.data with
  | nil => left; rfl
  | cons h t =>
    cases t with
    | nil => left; rfl
    | cons p t2 =>
      cases t2 with
      | nil => right; exact ⟨h, p, rfl, rfl⟩
      | cons q t3 => left; rfl

/-- A trimmed piece without `,` and `:` is canonical. -/
theorem Canonical_Trim (cs : List Char) (hcomma : ',' ∉ cs) (hcolon : ':' ∉ cs) :
    Canonical (Trim (String.mk cs) ' ') := by
  unfold Canonical Trim
  exact ⟨fun h => hcomma (mem_trimChars ' ' ',' cs h),
    fun h => hcolon (mem_trimChars ' ' ':' cs h),
    (trimChars_ends ' ' cs).1, (trimChars_ends ' ' cs).2⟩

/-- The parser's loop keeps its list canonical when the tokens hold no `,`. -/
theorem foldl_appendHostPort_canonical :
    ∀ (tokens : List String) (Eps : List Endpoint),
      (∀ t ∈ tokens, ',' ∉ t.data) →
      (∀ ep ∈ Eps, Canonical ep.Host ∧ Canonical ep.Port) →
      ∀ ep ∈ tokens.foldl appendHostPort Eps, Canonical ep.Host ∧ Canonical ep.Port := by
  intro tokens
  induction tokens with
  | nil => intro Eps _ h; exact h
  | cons t ts ih =>
    intro Eps htok hEps
    rw [List.foldl_cons]
    apply ih _ (fun t2 h2 => htok t2 (List.mem_cons_of_mem _ h2))
    rcases appendHostPort_cases Eps t with h | ⟨h, p, hsplit, happ⟩
    · rw [h]; exact hEps
    · rw [happ]
      intro ep hep
      rcases List.mem_append.mp hep with e | e
      · exact hEps ep e
      · rw [List.mem_singleton] at e
        subst e
        have hcomma := htok t (List.mem_cons_self _ _)
        have hh := splitChars_pieces ':' t.data h (by rw [hsplit]; simp)
        have hp := splitChars_pieces ':' t.data p (by rw [hsplit]; simp)
        exact ⟨Canonical_Trim h (fun x => hcomma (hh.2 _ x)) hh.1,
          Canonical_Trim p (fun x => hcomma (hp.2 _ x)) hp.1⟩

/-- Every endpoint the parser returns is canonical. -/
theorem parseEndpoints_canonical (val : String) :
    ∀ ep ∈ parseEndpoints val, Canonical ep.Host ∧ Canonical ep.Port := by
  unfold parseEndpoints
  apply foldl_appendHostPort_canonical
  · intro t ht
    unfold Split at ht
    obtain ⟨piece, hpiece, rfl⟩ := List.mem_map.mp ht
    exact (splitChars_pieces ',' val.data piece hpiece).1
  · intro ep hep
    simp at hep

/-- The token of a canonical endpoint parses back to the endpoint. -/
theorem appendHostPort_format (Eps : List Endpoint) (ep : Endpoint)
    (hhost : Canonical ep.Host) (hport : Canonical ep.Port) :
    appendHostPort Eps (formatEndpoint ep) = Eps ++ [ep] := by
  have hdata : (formatEndpoint ep).data = ep.Host.data ++ ':' :: ep.Port.data := by
    simp [formatEndpoint, String.data_append]
  have hsplit : splitChars ':' (formatEndpoint ep).data = [ep.Host.data, ep.Port.data] := by
    rw [hdata, splitChars_append_sep ':' _ _ hhost.2.1,
      splitChars_of_not_mem ':' _ hport.2.1]
  have hH : Trim ep.Host ' ' = ep.Host := by
    unfold Trim
    rw [trimChars_of_ends ' ' _ hhost.2.2.1 hhost.2.2.2]
  have hP : Trim ep.Port ' ' = ep.Port := by
    unfold Trim
    rw [trimChars_of_ends ' ' _ hport.2.2.1 hport.2.2.2]
  unfold appendHostPort Split
  rw [hsplit]
  simp only [List.map_cons, List.map_nil]
  show Eps ++ [⟨Trim ep.Host ' ', Trim ep.Port ' '⟩] = Eps ++ [ep]
  rw [hH, hP]

theorem foldl_appendHostPort_format :
    ∀ (L Eps : List Endpoint), (∀ ep ∈ L, Canonical ep.Host ∧ Canonical ep.Port) →
      (L.map formatEndpoint).foldl appendHostPort Eps = Eps ++ L := by
  intro L
  induction L with
  | nil => intro Eps _; simp
  | cons ep rest ih =>
    intro Eps h
    have hep := h ep (List.mem_cons_self _ _)
    rw [List.map_cons, List.foldl_cons, appendHostPort_format Eps ep hep.1 hep.2,
      ih _ (fun e he => h e (List.mem_cons_of_mem _ he))]
    simp

/-- Splitting a join of comma-free tokens gives the tokens back. -/
theorem Split_Join :
    ∀ tokens : List String, tokens ≠ [] → (∀ t ∈ tokens, ',' ∉ t.data) →
      Split (Join tokens ",") ',' = tokens := by
  intro tokens
  induction tokens with
  | nil => intro h; exact absurd rfl h
  | cons t ts ih =>
    intro _ hall
    have ht := hall t (List.mem_cons_self _ _)
    cases ts with
    | nil =>
      simp only [Join, Split]
      rw [splitChars_of_not_mem ',' _ ht]
      rfl
    | cons t2 ts2 =>
      have hrest := ih (by simp) (fun x hx => hall x (List.mem_cons_of_mem _ hx))
      have hdata : (Join (t :: t2 :: ts2) ",").data =
          t.data ++ ',' :: (Join (t2 :: ts2) ",").data := by
        simp [Join, String.data_append]
      unfold Split at hrest ⊢
      rw [hdata, splitChars_append_sep ',' _ _ ht, List.map_cons, hrest]

/-- Parsing the written form of a canonical list gives the list back. -/
theorem parseEndpoints_format (L : List Endpoint)
    (h : ∀ ep ∈ L, Canonical ep.Host ∧ Canonical ep.Port) :
    parseEndpoints (formatEndpoints L) = L := by
  cases L with
  | nil => decide
  | cons ep rest =>
    unfold parseEndpoints formatEndpoints
    rw [Split_Join _ (by simp)]
    · rw [foldl_appendHostPort_format _ [] h]
      rfl
    · intro t ht
      obtain ⟨e, he, rfl⟩ := List.mem_map.mp ht
      have hc := h e he
      simp only [formatEndpoint, String.data_append, List.mem_append, not_or]
      exact ⟨⟨hc.1.1, by decide⟩, hc.2.1⟩

/-- C16: parse/format round trip.  For every string `val`, writing the list
returned by `parseServiceFromString(id, val)` back as `host:port` tokens joined
by `,` and parsing that string again returns the same list of endpoints; the
parsed hosts and ports contain no `,` and no `:` and neither start nor end with
a space. -/
theorem C16_round_trip (o o2 : EtcdEndpointManager) (serviceID serviceID2 val : String) :
    (parseServiceFromString o2 serviceID2
        (formatEndpoints (parseServiceFromString o serviceID val).1)).1 =
        (parseServiceFromString o serviceID val).1 ∧
      ∀ ep ∈ (parseServiceFromString o serviceID val).1,
        Canonical ep.Host ∧ Canonical ep.Port :=
  ⟨parseEndpoints_format _ (parseEndpoints_canonical val), parseEndpoints_canonical val⟩

/-- C16 at a concrete input: a value with surrounding spaces, a malformed
token and an empty host is written back as `h1:1,h2:2,:3`, which parses to the
same three endpoints. -/
theorem C16_round_trip_witness :
    (parseServiceFromString (NewEtcdEndpointManager []) "svc" " h1 : 1,bad, h2:2 , :3").1 =
        [⟨"h1", "1"⟩, ⟨"h2", "2"⟩, ⟨"", "3"⟩] ∧
      formatEndpoints [⟨"h1", "1"⟩, ⟨"h2", "2"⟩, ⟨"", "3"⟩] = "h1:1,h2:2,:3" ∧
      (parseServiceFromString (NewEtcdEndpointManager []) "svc"
        (formatEndpoints
          (parseServiceFromString (NewEtcdEndpointManager []) "svc"
            " h1 : 1,bad, h2:2 , :3").1)).1 =
        (parseServiceFromString (NewEtcdEndpointManager []) "svc"
          " h1 : 1,bad, h2:2 , :3").1 :=
  ⟨by decide, by decide,
    (C16_round_trip (NewEtcdEndpointManager []) (NewEtcdEndpointManager []) "svc" "svc"
      " h1 : 1,bad, h2:2 , :3").1⟩

end GoEndpointManager
